import Mathlib

/-!
# goph/shutdown: ordered shutdown handlers

A shallow embedding of `src/error.go` and `src/shutdown.go`, with the test
doubles of `src/error_test.go` and `src/shutdown_test.go`, followed by the
properties of the specification that were checked against it.

Modelling conventions

* A Go `error` is `Option GoError`: `none` is the nil error, and `GoError` is
  the type of non-nil error values.  Two values compare equal exactly when Go's
  `==` on the interfaces would, except that two separately allocated
  `errors.New` results with the same text are not told apart.
* The argument of `panic` and the result of `recover()` are `interface{}`
  values: `Option Payload`, `none` being the nil interface.
* Functions that have effects are state transformers over a `World`, which holds
  the `Manager` and the rest of the heap.  A call either returns or unwinds
  with a panic (`Res`).  Calls that never return are outside the model.
* Function values (`Handler`) and `errorHandler` implementations are references
  `H` and `S`; a `Program` says what calling them does.
* A slice of handlers is the list of its elements: `append` is `++`, and the
  loop of `Shutdown` visits the elements the slice had when the loop started.
  Backing arrays, and so writes through another slice that shares one, are
  outside the model.
* `Shutdown` is instrumented with a trace of the calls it makes.
-/

namespace shutdown

/-! ## Values -/

/-- Non-nil values of Go's `error` interface. -/
inductive GoError where
  /-- The value built by `errors.New(s)`, and by `fmt.Errorf` without `%w`. -/
  | errorString (s : String)
  /-- A `runtime.Error` raised by the Go runtime itself. -/
  | runtimeError (s : String)
  /-- Any other implementation; `id` tells apart values with the same message. -/
  | custom (id : Nat) (msg : String)
  deriving DecidableEq, Repr

/-- The `Error()` method. -/
def GoError.Error : GoError → String
  | .errorString s => s
  | .runtimeError s => "runtime error: " ++ s
  | .custom _ msg => msg

/-- Values that are neither of type `string` nor implement `error`. -/
inductive GoValue where
  | int (n : Int)
  | bool (b : Bool)
  /-- A value of any other dynamic type, given by what `%v` prints for it. -/
  | other (rendering : String)
  deriving DecidableEq, Repr

/-- The text `fmt` produces for a value under the verb `%v`. -/
def fmtV : GoValue → String
  | .int n => toString n
  | .bool b => toString b
  | .other s => s

/-- A non-nil `interface{}` value, by the cases the type switch of `r` tells apart. -/
inductive Payload where
  | str (x : String)
  | err (x : GoError)
  | val (v : GoValue)
  deriving DecidableEq, Repr

/-- Go: `errors.New(text)`. -/
def errors.New (text : String) : GoError := .errorString text

/-- Go: `fmt.Errorf("Unknown panic, received: %v", v)`; the result is the
error whose text is the formatted string. -/
def fmt.Errorf_unknownPanic (v : GoValue) : GoError :=
  .errorString ("Unknown panic, received: " ++ fmtV v)

/-! ## error.go -/

/-- Go: `func r(r interface{}) (err error)`.  The named result `err` starts
as nil and is assigned only when the argument is not nil. -/
def r (p : Option Payload) : Option GoError :=
  match p with
  | none => none
  | some (.str x) => some (errors.New x)
  | some (.err x) => some x
  | some (.val v) => some (fmt.Errorf_unknownPanic v)

/-- Modelled from the spec: `errors.Recover` of the package
`github.com/goph/stdlib/errors`, which `shutdown.go` imports and which is not
among the sources.  Section 4.4 step 1 has `Shutdown` apply the unwind
normalizer of section 4.1 to the payload: absent payload, no error; an error,
returned unchanged; a text, a new error with that text; any other value, the
error `Unknown panic, received: <value>`. -/
def errors.Recover (p : Option Payload) : Option GoError :=
  match p with
  | none => none
  | some (.str x) => some (errors.New x)
  | some (.err x) => some x
  | some (.val v) => some (fmt.Errorf_unknownPanic v)

/-! ## shutdown.go: data -/

/-- Non-nil values of the interface `errorHandler`. -/
inductive errorHandler (S : Type) where
  /-- Go: `&noopErrorHandler{}`. -/
  | noop
  /-- Any other implementation, for instance a `*testErrorHandler`. -/
  | impl (s : S)
  deriving DecidableEq, Repr

/-- Go: `type Manager struct { handlers []Handler; ErrorHandler errorHandler }`.
The field `ErrorHandler` is an interface and may be nil (`none`), as it is in
the zero value `Manager{}`. -/
structure Manager (H S : Type) where
  handlers : List H
  ErrorHandler : Option (errorHandler S)
  deriving DecidableEq, Repr

/-- The state a call can read and write: the Manager and the rest of the heap. -/
structure World (H S σ : Type) where
  m : Manager H S
  heap : σ
  deriving DecidableEq, Repr

/-- How a call ends: it returns a value, or it unwinds with the argument that
was given to `panic`.  Both leave a state behind. -/
inductive Res (W α : Type) where
  | ret (a : α) (w : W)
  | panic (p : Option Payload) (w : W)
  deriving DecidableEq, Repr

/-- What calling the function values and sink methods of a program does. -/
structure Program (H S σ : Type) where
  /-- Go: `handler()` for a `Handler` value (`func() error`). -/
  call : H → World H S σ → Res (World H S σ) (Option GoError)
  /-- Go: `s.Handle(err)` for an implementation `s` of `errorHandler`. -/
  Handle : S → GoError → World H S σ → Res (World H S σ) Unit

/-- What `Shutdown` did, in order. -/
inductive Event (H S : Type) where
  /-- The handler `h` was invoked: `handler()`. -/
  | call (h : H)
  /-- The invoked handler returned `err`. -/
  | result (err : Option GoError)
  /-- The call `m.ErrorHandler.Handle(e)` was made while `m.ErrorHandler` was `s`. -/
  | handle (s : Option (errorHandler S)) (e : GoError)
  deriving DecidableEq, Repr

/-- A finished call of `Shutdown`: the calls it made and how it ended. -/
structure Run (H S σ : Type) where
  trace : List (Event H S)
  out : Res (World H S σ) Unit
  deriving DecidableEq, Repr

/-- Put earlier events in front of the trace of a run. -/
def Run.after {H S σ : Type} (evs : List (Event H S)) (run : Run H S σ) : Run H S σ :=
  { run with trace := evs ++ run.trace }

/-- The handlers invoked, in order. -/
def invoked {H S : Type} : List (Event H S) → List H
  | [] => []
  | .call h :: t => h :: invoked t
  | _ :: t => invoked t

/-- The values the invoked handlers returned, in order. -/
def results {H S : Type} : List (Event H S) → List (Option GoError)
  | [] => []
  | .result e :: t => e :: results t
  | _ :: t => results t

/-- The errors passed to `Handle`, in order. -/
def reported {H S : Type} : List (Event H S) → List GoError
  | [] => []
  | .handle _ e :: t => e :: reported t
  | _ :: t => reported t

/-- The sinks `Handle` was called on, with the error each was given, in order. -/
def deliveries {H S : Type} : List (Event H S) → List (Option (errorHandler S) × GoError)
  | [] => []
  | .handle s e :: t => (s, e) :: deliveries t
  | _ :: t => deliveries t

/-! ## shutdown.go: operations -/

/-- Go: `func NewManager() *Manager`. -/
def NewManager {H S : Type} : Manager H S :=
  { handlers := [], ErrorHandler := some .noop }

/-- Go: `m.handlers = append(m.handlers, handlers...)`. -/
def Manager.Register {H S : Type} (m : Manager H S) (handlers : List H) : Manager H S :=
  { m with handlers := m.handlers ++ handlers }

/-- Go: `m.handlers = append(handlers, m.handlers...)`. -/
def Manager.RegisterAsFirst {H S : Type} (m : Manager H S) (handlers : List H) : Manager H S :=
  { m with handlers := handlers ++ m.handlers }

/-- The payload of the run-time panic raised by a method call on a nil interface. -/
def nilDereference : Payload :=
  .err (.runtimeError "invalid memory address or nil pointer dereference")

/-- Go: `m.ErrorHandler.Handle(err)`.  The field is read when the call is made. -/
def report {H S σ : Type} (P : Program H S σ) (err : GoError) (w : World H S σ) :
    Res (World H S σ) Unit :=
  match w.m.ErrorHandler with
  | none => .panic (some nilDereference) w
  | some .noop => .ret () w
  | some (.impl s) => P.Handle s err w

/-- Go: `for _, handler := range m.handlers { err := handler(); if err != nil {
m.ErrorHandler.Handle(err) } }`, for the handlers still to visit.  The range
expression is evaluated once, when the loop starts; the handlers are kept by
value here, which is what the loop reads as long as no callee writes into the
cells it ranges over (`rangeSlice` keeps the backing arrays); a panic of a
callee ends the loop and unwinds. -/
def rangeHandlers {H S σ : Type} (P : Program H S σ) :
    List H → World H S σ → Run H S σ
  | [], w => ⟨[], .ret () w⟩
  | handler :: rest, w =>
    match P.call handler w with
    | .panic p w1 => ⟨[.call handler], .panic p w1⟩
    | .ret none w1 =>
      (rangeHandlers P rest w1).after [.call handler, .result none]
    | .ret (some err) w1 =>
      match report P err w1 with
      | .panic p w2 =>
        ⟨[.call handler, .result (some err), .handle w1.m.ErrorHandler err], .panic p w2⟩
      | .ret _ w2 =>
        (rangeHandlers P rest w2).after
          [.call handler, .result (some err), .handle w1.m.ErrorHandler err]

/-- Go: `func (m *Manager) Shutdown()`.  `recovered` is what the call
`recover()` on its first line returns: the payload of the panic in progress
when `Shutdown` runs as a deferred call of the panicking function, and nil
otherwise. -/
def Shutdown {H S σ : Type} (P : Program H S σ) (recovered : Option Payload)
    (w : World H S σ) : Run H S σ :=
  match errors.Recover recovered with
  | none => rangeHandlers P w.m.handlers w
  | some err =>
    match report P err w with
    | .panic p w1 => ⟨[.handle w.m.ErrorHandler err], .panic p w1⟩
    | .ret _ w1 => (rangeHandlers P w1.m.handlers w1).after [.handle w.m.ErrorHandler err]

/-- Go: `func Func(fn func()) Handler`, on what calling `fn` does.  The deferred
function assigns `r(recover())` to the result on every way out of `fn`:
`recover()` is nil when `fn` returned and the payload when it panicked. -/
def Func {W : Type} (fn : W → Res W Unit) : W → Res W (Option GoError) :=
  fun w =>
    match fn w with
    | .ret _ w1 => .ret (r none) w1
    | .panic p w1 => .ret (r p) w1

/-! ## The test doubles of error_test.go and shutdown_test.go -/

/-- Go: `type testErrorHandler struct { errors []error }`. -/
structure testErrorHandler where
  errors : List GoError
  deriving DecidableEq, Repr

/-- Go: `h.errors = append(h.errors, err)`. -/
def testErrorHandler.Handle (h : testErrorHandler) (err : GoError) : testErrorHandler :=
  { errors := h.errors ++ [err] }

/-- Go: `func (h *testErrorHandler) Last() error`. -/
def testErrorHandler.Last (h : testErrorHandler) : Option GoError :=
  let count := h.errors.length
  if count > 0 then h.errors.get? (count - 1) else none

/-- The variables the closures of the tests capture. -/
structure TestHeap where
  /-- Go: `called := []int{}` of `CreateOrderedShutdownFuncs`. -/
  called : List Nat
  /-- Go: `var called bool` of `CreateShutdownFunc`. -/
  flag : Bool
  /-- The `testErrorHandler` a test allocates. -/
  sink : testErrorHandler
  deriving DecidableEq, Repr

/-- The plain functions (`func()`) the tests pass to `Func`. -/
inductive TestFn where
  /-- Go: `func() { called = append(called, index+1) }`. -/
  | appendIndex (index : Nat)
  /-- Go: `func() { called = true }`. -/
  | setCalled
  /-- Go: `func() { panic(p) }`. -/
  | panics (p : Option Payload)
  deriving DecidableEq, Repr

/-- The `Handler` values of the tests. -/
inductive TestHandler where
  /-- Go: `Func(fn)`. -/
  | func (fn : TestFn)
  /-- Go: `func() error { return err }`. -/
  | returns (err : Option GoError)
  /-- Go: `func() error { panic(p) }`, a handler not made by `Func`. -/
  | panics (p : Option Payload)
  deriving DecidableEq, Repr

/-- The implementations of `errorHandler` other than the no-op one. -/
inductive TestSink where
  /-- The `*testErrorHandler` kept in `TestHeap.sink`. -/
  | recorder
  /-- An implementation whose `Handle` is `panic(p)`. -/
  | panicking (p : Option Payload)
  deriving DecidableEq, Repr

/-- The state the tests run in. -/
abbrev TestWorld := World TestHandler TestSink TestHeap

/-- What calling a plain function of the tests does. -/
def TestFn.run : TestFn → TestWorld → Res TestWorld Unit
  | .appendIndex index, w =>
    .ret () { w with heap := { w.heap with called := w.heap.called ++ [index + 1] } }
  | .setCalled, w => .ret () { w with heap := { w.heap with flag := true } }
  | .panics p, w => .panic p w

/-- The functions and sinks of the tests. -/
def testProgram : Program TestHandler TestSink TestHeap where
  call
    | .func fn, w => Func fn.run w
    | .returns err, w => .ret err w
    | .panics p, w => .panic p w
  Handle
    | .recorder, err, w => .ret () { w with heap := { w.heap with sink := w.heap.sink.Handle err } }
    | .panicking p, _, w => .panic p w

/-- The heap at the start of a test. -/
def TestHeap.init : TestHeap := { called := [], flag := false, sink := { errors := [] } }

/-- Go: `manager := NewManager(); manager.ErrorHandler = errorHandler` followed
by `manager.Register(handlers...)`, with `errorHandler := &testErrorHandler{}`. -/
def recordingWorld (handlers : List TestHandler) : TestWorld :=
  { m := Manager.Register
      { (NewManager : Manager TestHandler TestSink) with
          ErrorHandler := some (errorHandler.impl TestSink.recorder) }
      handlers,
    heap := TestHeap.init }

/-- Go: `var m Manager` followed by `m.Register(handlers...)`: the zero Manager,
whose `ErrorHandler` is nil. -/
def zeroWorld (handlers : List TestHandler) : TestWorld :=
  { m := ({ handlers := [], ErrorHandler := none } : Manager TestHandler TestSink).Register handlers,
    heap := TestHeap.init }

/-- Go: `manager := NewManager(); manager.ErrorHandler = sink` followed by
`manager.Register(handlers...)`, for a `sink` whose `Handle` is `panic(p)`. -/
def panickingWorld (p : Option Payload) (handlers : List TestHandler) : TestWorld :=
  { m := Manager.Register
      { (NewManager : Manager TestHandler TestSink) with
          ErrorHandler := some (errorHandler.impl (TestSink.panicking p)) }
      handlers,
    heap := TestHeap.init }

/-- Go: `manager := NewManager()` followed by `manager.Register(handlers...)`:
the no-op sink is installed. -/
def newWorld (handlers : List TestHandler) : TestWorld :=
  { m := (NewManager : Manager TestHandler TestSink).Register handlers,
    heap := TestHeap.init }

/-- Go: `CreateOrderedShutdownFuncs(num)`: the handlers `Func` makes of the
functions that append `index+1`, for `index` from `0` below `num`. -/
def CreateOrderedShutdownFuncs (num : Nat) : List TestHandler :=
  (List.range num).map (fun index => .func (.appendIndex index))

/-- Go: `f` of `CreateShutdownFunc()`. -/
def CreateShutdownFunc : TestHandler := .func .setCalled

/-- Go: `manager := NewManager(); manager.Register(funcs[1]);
manager.RegisterAsFirst(funcs[0])` of `TestManager_RegisterAsFirst`, with
`funcs` from `CreateOrderedShutdownFuncs(2)`. -/
def registerAsFirstWorld : TestWorld :=
  { m := ((NewManager : Manager TestHandler TestSink).Register
            [.func (.appendIndex 1)]).RegisterAsFirst [.func (.appendIndex 0)],
    heap := TestHeap.init }

/-! ## Shutdown as it is used -/

/-- Go: `func (e *noopErrorHandler) Handle(err error) {}`. -/
def noopErrorHandler.Handle {W : Type} (_err : GoError) (w : W) : Res W Unit := .ret () w

/-- Go: `func() { defer manager.Shutdown(); body() }()`, the way the package
comment of `Shutdown` and `TestManager_Shutdown_RecoverFromPanic` use it.  The
deferred call runs when `body` has returned and when it has panicked; in the
second case `recover()` in `Shutdown` returns the payload and stops that panic.
The result is how the enclosing function ends. -/
def deferShutdown {H S σ : Type} (P : Program H S σ)
    (body : World H S σ → Res (World H S σ) Unit) (w : World H S σ) : Run H S σ :=
  match body w with
  | .ret _ w1 => Shutdown P none w1
  | .panic p w1 => Shutdown P p w1

/-- Go: `m.Shutdown(); m.Shutdown()`, with no panic in progress.  The second
call is made when the first has returned. -/
def ShutdownTwice {H S σ : Type} (P : Program H S σ) (w : World H S σ) : Run H S σ :=
  match (Shutdown P none w).out with
  | .ret _ w1 => (Shutdown P none w1).after (Shutdown P none w).trace
  | .panic p w1 => ⟨(Shutdown P none w).trace, .panic p w1⟩

/-- How a call of a plain function ended: `none` when it returned, and the
argument of `panic` when it panicked. -/
def Res.panicked {W α : Type} : Res W α → Option (Option Payload)
  | .ret _ _ => none
  | .panic p _ => some p

/-- The state a call leaves behind, however it ended. -/
def Res.state {W α : Type} : Res W α → W
  | .ret _ w => w
  | .panic _ w => w

/-- What `Func` makes of the way the function ended: nil when it returned, and
`r` of the payload when it panicked. -/
def resultOfFunc : Option (Option Payload) → Option GoError
  | none => none
  | some p => r p

/-! ## Test doubles that act on the Manager while Shutdown runs -/

/-- Implementations of `errorHandler` for handlers that replace the sink. -/
inductive LiveSink where
  /-- A `*testErrorHandler`, kept in `LiveHeap.first`. -/
  | first
  /-- Another `*testErrorHandler`, kept in `LiveHeap.second`. -/
  | second
  /-- A sink whose `Handle` is `manager.Register(h)`, for the handler `h` that
  appends `i` to the log and returns nil. -/
  | registering (i : Nat)
  deriving DecidableEq, Repr

/-- Handlers that register handlers or replace the sink when they run. -/
inductive LiveHandler where
  /-- Go: `func() error { called = append(called, i); return err }`. -/
  | log (i : Nat) (err : Option GoError)
  /-- Go: `func() error { manager.Register(h); return nil }`, for the handler
  `h` that appends `i` to the log and returns nil. -/
  | register (i : Nat)
  /-- Go: `func() error { manager.RegisterAsFirst(h); return nil }`, for the
  same `h`. -/
  | registerAsFirst (i : Nat)
  /-- Go: `func() error { manager.ErrorHandler = s; return err }`. -/
  | setSink (s : Option (errorHandler LiveSink)) (err : Option GoError)
  deriving DecidableEq, Repr

/-- The variables these handlers and sinks use. -/
structure LiveHeap where
  called : List Nat
  first : testErrorHandler
  second : testErrorHandler
  deriving DecidableEq, Repr

/-- The state these handlers run in. -/
abbrev LiveWorld := World LiveHandler LiveSink LiveHeap

/-- What calling these handlers and sinks does. -/
def liveProgram : Program LiveHandler LiveSink LiveHeap where
  call
    | .log i err, w => .ret err { w with heap := { w.heap with called := w.heap.called ++ [i] } }
    | .register i, w => .ret none { w with m := w.m.Register [.log i none] }
    | .registerAsFirst i, w => .ret none { w with m := w.m.RegisterAsFirst [.log i none] }
    | .setSink s err, w => .ret err { w with m := { w.m with ErrorHandler := s } }
  Handle
    | .first, err, w => .ret () { w with heap := { w.heap with first := w.heap.first.Handle err } }
    | .second, err, w =>
      .ret () { w with heap := { w.heap with second := w.heap.second.Handle err } }
    | .registering i, _, w => .ret () { w with m := w.m.Register [.log i none] }

/-- Go: `manager := NewManager(); manager.ErrorHandler = sink` followed by
`manager.Register(handlers...)`, with empty log and records. -/
def liveWorld (sink : LiveSink) (handlers : List LiveHandler) : LiveWorld :=
  { m := Manager.Register
      { (NewManager : Manager LiveHandler LiveSink) with
          ErrorHandler := some (errorHandler.impl sink) }
      handlers,
    heap := { called := [], first := { errors := [] }, second := { errors := [] } } }

/-! ## Slices with their backing arrays

The loop of `Shutdown` ranges over a slice, and `range` reads cell `i` of the
backing array at iteration `i`.  `append` writes into the array of its first
argument when the capacity allows.  The definitions of this section keep the
arrays, for the properties that depend on them. -/

/-- A Go slice of handlers that starts at the first cell of its backing array:
the array, the length and the capacity. -/
structure Slice where
  arr : Nat
  len : Nat
  cap : Nat
  deriving DecidableEq, Repr

/-- The arrays allocated so far, by number; a cell holds a handler or the nil
function value. -/
abbrev Arrays (H : Type) := List (List (Option H))

/-- The first `n` cells of the array `a`. -/
def Arrays.cells {H : Type} (A : Arrays H) (a n : Nat) : List (Option H) :=
  (A.getD a []).take n

/-- The cell `i` of the array `a`, when there is one. -/
def Arrays.cell {H : Type} (A : Arrays H) (a i : Nat) : Option (Option H) :=
  (A.getD a []).get? i

/-- The array `l` after the values `xs` were copied to its cells from `p` on. -/
def writeAt {α : Type} (l : List α) (p : Nat) (xs : List α) : List α :=
  l.take p ++ xs ++ l.drop (p + xs.length)

/-- Go: `append(s, t...)`.  The values of `t` are read first.  When the capacity
of `s` suffices they are copied into the array of `s`, behind its elements;
otherwise a new array is allocated that holds the elements of `s` and then
those of `t`.  How much room the new array has beyond them is up to the
runtime: it is `spare` here. -/
def goAppend {H : Type} (spare : Nat) (A : Arrays H) (s t : Slice) : Arrays H × Slice :=
  if s.len + t.len ≤ s.cap then
    (A.set s.arr (writeAt (A.getD s.arr []) s.len (A.cells t.arr t.len)),
      { s with len := s.len + t.len })
  else
    (A ++ [A.cells s.arr s.len ++ A.cells t.arr t.len ++ List.replicate spare none],
      { arr := A.length, len := s.len + t.len, cap := s.len + t.len + spare })

/-- Go: `type Manager struct`, with the slice header in `handlers`. -/
structure SliceManager (S : Type) where
  handlers : Slice
  ErrorHandler : Option (errorHandler S)
  deriving DecidableEq, Repr

/-- The state a call can read and write: the arrays, the Manager, the rest;
and `spare`, the room beyond its elements that the next array allocated by
`append` gets. -/
structure SliceWorld (H S σ : Type) where
  arrays : Arrays H
  spare : Nat
  m : SliceManager S
  heap : σ
  deriving DecidableEq, Repr

/-- What calling the function values and sink methods of a program does. -/
structure SliceProgram (H S σ : Type) where
  /-- Go: `handler()`. -/
  call : H → SliceWorld H S σ → Res (SliceWorld H S σ) (Option GoError)
  /-- Go: `s.Handle(err)`. -/
  Handle : S → GoError → SliceWorld H S σ → Res (SliceWorld H S σ) Unit

/-- A finished call of `Shutdown`: the calls it made and how it ended. -/
structure SliceRun (H S σ : Type) where
  trace : List (Event H S)
  out : Res (SliceWorld H S σ) Unit
  deriving DecidableEq, Repr

/-- Put earlier events in front of the trace of a run. -/
def SliceRun.after {H S σ : Type} (evs : List (Event H S)) (run : SliceRun H S σ) :
    SliceRun H S σ :=
  { run with trace := evs ++ run.trace }

/-- Go: `m.Register(t...)`: `m.handlers = append(m.handlers, handlers...)`, for
the slice `t` passed as `handlers`. -/
def SliceWorld.Register {H S σ : Type} (w : SliceWorld H S σ) (t : Slice) : SliceWorld H S σ :=
  { w with arrays := (goAppend w.spare w.arrays w.m.handlers t).1,
           m := { w.m with handlers := (goAppend w.spare w.arrays w.m.handlers t).2 } }

/-- Go: `m.RegisterAsFirst(t...)`: `m.handlers = append(handlers, m.handlers...)`,
for the slice `t` passed as `handlers`. -/
def SliceWorld.RegisterAsFirst {H S σ : Type} (w : SliceWorld H S σ) (t : Slice) :
    SliceWorld H S σ :=
  { w with arrays := (goAppend w.spare w.arrays t w.m.handlers).1,
           m := { w.m with handlers := (goAppend w.spare w.arrays t w.m.handlers).2 } }

/-- The slice Go makes of arguments that are passed one by one to a variadic
function: a new array that holds just them. -/
def SliceWorld.args {H S σ : Type} (w : SliceWorld H S σ) (xs : List H) :
    SliceWorld H S σ × Slice :=
  ({ w with arrays := w.arrays ++ [xs.map some] },
    { arr := w.arrays.length, len := xs.length, cap := xs.length })

/-- Go: `m.ErrorHandler.Handle(err)`. -/
def sliceReport {H S σ : Type} (P : SliceProgram H S σ) (err : GoError)
    (w : SliceWorld H S σ) : Res (SliceWorld H S σ) Unit :=
  match w.m.ErrorHandler with
  | none => .panic (some nilDereference) w
  | some .noop => .ret () w
  | some (.impl s) => P.Handle s err w

/-- Go: the loop `for _, handler := range m.handlers`, over the slice header `s`
that was read when the loop started, with `n` iterations left from index `i`.
Each iteration reads the cell `i` of the backing array as it is then; calling
a nil function value panics. -/
def rangeSlice {H S σ : Type} (P : SliceProgram H S σ) (s : Slice) :
    Nat → Nat → SliceWorld H S σ → SliceRun H S σ
  | 0, _, w => ⟨[], .ret () w⟩
  | n + 1, i, w =>
    match w.arrays.cell s.arr i with
    | none => ⟨[], .panic (some nilDereference) w⟩
    | some none => ⟨[], .panic (some nilDereference) w⟩
    | some (some handler) =>
      match P.call handler w with
      | .panic p w1 => ⟨[.call handler], .panic p w1⟩
      | .ret none w1 =>
        (rangeSlice P s n (i + 1) w1).after [.call handler, .result none]
      | .ret (some err) w1 =>
        match sliceReport P err w1 with
        | .panic p w2 =>
          ⟨[.call handler, .result (some err), .handle w1.m.ErrorHandler err], .panic p w2⟩
        | .ret _ w2 =>
          (rangeSlice P s n (i + 1) w2).after
            [.call handler, .result (some err), .handle w1.m.ErrorHandler err]

/-- Go: `func (m *Manager) Shutdown()`, on slices; `recovered` is what
`recover()` returns. -/
def SliceShutdown {H S σ : Type} (P : SliceProgram H S σ) (recovered : Option Payload)
    (w : SliceWorld H S σ) : SliceRun H S σ :=
  match errors.Recover recovered with
  | none => rangeSlice P w.m.handlers w.m.handlers.len 0 w
  | some err =>
    match sliceReport P err w with
    | .panic p w1 => ⟨[.handle w.m.ErrorHandler err], .panic p w1⟩
    | .ret _ w1 =>
      (rangeSlice P w1.m.handlers w1.m.handlers.len 0 w1).after [.handle w.m.ErrorHandler err]

/-! ## Test doubles on slices -/

/-- Handlers that register handlers while `Shutdown` runs. -/
inductive SliceHandler where
  /-- Go: `func() error { called = append(called, i); return err }`. -/
  | log (i : Nat) (err : Option GoError)
  /-- Go: `func() error { manager.RegisterAsFirst(t...); return nil }`, for a
  slice `t` of the caller. -/
  | registerAsFirstSlice (t : Slice)
  /-- Go: `func() error { manager.Register(h); return nil }`, for the handler
  `h` that appends `i` to the log and returns nil. -/
  | register (i : Nat)
  /-- Go: `func() error { manager.RegisterAsFirst(h); return nil }`, for the
  same `h`. -/
  | registerAsFirst (i : Nat)
  deriving DecidableEq, Repr

/-- Implementations of `errorHandler` for these handlers. -/
inductive SliceSink where
  /-- A `*testErrorHandler`, kept in `SliceHeap.sink`. -/
  | recorder
  /-- A sink whose `Handle` is `manager.Register(h)`, for the handler `h` that
  appends `i` to the log and returns nil. -/
  | registering (i : Nat)
  deriving DecidableEq, Repr

/-- The variables these handlers and sinks use. -/
structure SliceHeap where
  called : List Nat
  sink : testErrorHandler
  deriving DecidableEq, Repr

/-- The state these handlers run in. -/
abbrev SliceTestWorld := SliceWorld SliceHandler SliceSink SliceHeap

/-- Go: `manager.Register(hs...)` with the handlers passed one by one. -/
def SliceWorld.RegisterArgs {H S σ : Type} (w : SliceWorld H S σ) (hs : List H) :
    SliceWorld H S σ :=
  (w.args hs).1.Register (w.args hs).2

/-- Go: `manager.RegisterAsFirst(hs...)` with the handlers passed one by one. -/
def SliceWorld.RegisterAsFirstArgs {H S σ : Type} (w : SliceWorld H S σ) (hs : List H) :
    SliceWorld H S σ :=
  (w.args hs).1.RegisterAsFirst (w.args hs).2

/-- What calling these handlers and sinks does. -/
def sliceProgram : SliceProgram SliceHandler SliceSink SliceHeap where
  call
    | .log i err, w => .ret err { w with heap := { w.heap with called := w.heap.called ++ [i] } }
    | .registerAsFirstSlice t, w => .ret none (w.RegisterAsFirst t)
    | .register i, w => .ret none (w.RegisterArgs [.log i none])
    | .registerAsFirst i, w => .ret none (w.RegisterAsFirstArgs [.log i none])
  Handle
    | .recorder, err, w => .ret () { w with heap := { w.heap with sink := w.heap.sink.Handle err } }
    | .registering i, _, w => .ret () (w.RegisterArgs [.log i none])

/-- Go: `manager := NewManager(); manager.ErrorHandler = sink`, with empty log
and record, and with the arrays `arrays` allocated by the caller. -/
def sliceWorld (arrays : Arrays SliceHandler) (sink : Option (errorHandler SliceSink)) :
    SliceTestWorld :=
  { arrays := arrays,
    spare := 0,
    m := { handlers := { arr := 0, len := 0, cap := 0 }, ErrorHandler := sink },
    heap := { called := [], sink := { errors := [] } } }

/-- Go: `s := make([]Handler, 1, 4); s[0] = s0; manager.RegisterAsFirst(s...);
manager.Register(h1, h2)`, where `s0` is
`func() error { manager.RegisterAsFirst(s...); return nil }` and `h1`, `h2` append
1 and 2 to the log. -/
def sharedArrayWorld : SliceTestWorld :=
  ((sliceWorld [[some (.registerAsFirstSlice { arr := 0, len := 1, cap := 4 }),
                 none, none, none]] (some .noop)).RegisterAsFirst
      { arr := 0, len := 1, cap := 4 }).RegisterArgs [.log 1 none, .log 2 none]

/-- Go: `manager := NewManager(); manager.ErrorHandler = sink;
manager.Register(hs...)`, with the handlers passed one by one, when `append`
gives each array it allocates room for `spare` more elements. -/
def registeredWorld (spare : Nat) (sink : Option (errorHandler SliceSink))
    (hs : List SliceHandler) : SliceTestWorld :=
  SliceWorld.RegisterArgs { sliceWorld [] sink with spare := spare } hs

/-- Go: a Manager with a `*testErrorHandler` as sink and four registered
handlers, passed one by one: two append to the log, the last of them failing,
and between them one calls `manager.Register(h)` and one
`manager.RegisterAsFirst(h)`; `append` gives each array it allocates room for 2
more elements, so that the first of these registrations writes into the array
that `Shutdown` ranges over, behind its elements. -/
def registeringWorld : SliceTestWorld :=
  registeredWorld 2 (some (.impl .recorder))
    [.log 1 none, .register 9, .registerAsFirst 8, .log 2 (some (.custom 7 "error"))]

/-- The call that led from `v` to `v1` left the arrays and the handler slice of
the Manager alone, or changed them as `Register` or `RegisterAsFirst` does with
handlers that are passed one by one. -/
def Registers {H S σ : Type} (v v1 : SliceWorld H S σ) : Prop :=
  (v1.arrays = v.arrays ∧ v1.m.handlers = v.m.handlers)
  ∨ (∃ xs, v1.arrays = (v.RegisterArgs xs).arrays
        ∧ v1.m.handlers = (v.RegisterArgs xs).m.handlers)
  ∨ (∃ xs, v1.arrays = (v.RegisterAsFirstArgs xs).arrays
        ∧ v1.m.handlers = (v.RegisterAsFirstArgs xs).m.handlers)

/-- The effect of the events of a trace on an observed part of the state, when
calling `h` changes it by `fc h` and `Handle(e)` by `fs e`. -/
def observe {H S γ : Type} (fc : H → γ → γ) (fs : GoError → γ → γ) :
    List (Event H S) → γ → γ
  | [], x => x
  | .call h :: t, x => observe fc fs t (fc h x)
  | .result _ :: t, x => observe fc fs t x
  | .handle _ e :: t, x => observe fc fs t (fs e x)

end shutdown

namespace shutdown
variable {H S σ γ : Type}

/-! ## Traces -/

@[simp]
theorem invoked_append (a b : List (Event H S)) :
    invoked (a ++ b) = invoked a ++ invoked b := by
  induction a with
  | nil => rfl
  | cons ev t ih => cases ev <;> simp [invoked, ih]

@[simp]
theorem results_append (a b : List (Event H S)) :
    results (a ++ b) = results a ++ results b := by
  induction a with
  | nil => rfl
  | cons ev t ih => cases ev <;> simp [results, ih]

@[simp]
theorem reported_append (a b : List (Event H S)) :
    reported (a ++ b) = reported a ++ reported b := by
  induction a with
  | nil => rfl
  | cons ev t ih => cases ev <;> simp [reported, ih]

@[simp]
theorem deliveries_append (a b : List (Event H S)) :
    deliveries (a ++ b) = deliveries a ++ deliveries b := by
  induction a with
  | nil => rfl
  | cons ev t ih => cases ev <;> simp [deliveries, ih]

theorem observe_append (fc : H → γ → γ) (fs : GoError → γ → γ) (a b : List (Event H S)) (x : γ) :
    observe fc fs (a ++ b) x = observe fc fs b (observe fc fs a x) := by
  induction a generalizing x with
  | nil => rfl
  | cons ev t ih => cases ev <;> simp [observe, ih]

@[simp]
theorem after_out (evs : List (Event H S)) (run : Run H S σ) :
    (run.after evs).out = run.out := rfl

@[simp]
theorem after_trace (evs : List (Event H S)) (run : Run H S σ) :
    (run.after evs).trace = evs ++ run.trace := rfl

/-- What a log sees of a trace: one entry per invoked handler. -/
theorem observe_log (idx : H → Nat) (tr : List (Event H S)) (x : List Nat) :
    observe (fun h l => l ++ [idx h]) (fun _ l => l) tr x = x ++ (invoked tr).map idx := by
  induction tr generalizing x with
  | nil => simp [observe, invoked]
  | cons ev t ih => cases ev <;> simp [observe, invoked, ih]

/-- What a recording sink sees of a trace: one entry per call of `Handle`. -/
theorem observe_recorder (tr : List (Event H S)) (x : testErrorHandler) :
    observe (fun _ t => t) (fun e t => testErrorHandler.Handle t e) tr x
      = { errors := x.errors ++ reported tr } := by
  induction tr generalizing x with
  | nil => simp [observe, reported]
  | cons ev t ih =>
    cases ev <;> simp only [observe, reported, ih]
    simp [testErrorHandler.Handle]

/-- `Last` is the last recorded error. -/
theorem Last_eq_getLast? (h : testErrorHandler) : h.Last = h.errors.getLast? := by
  unfold testErrorHandler.Last
  rcases List.eq_nil_or_concat h.errors with hnil | ⟨l, a, hl⟩
  · simp [hnil]
  · simp [hl]

/-! ## The loop of Shutdown -/

/-- The loop when every callee returns.  `Inv` is any property of the state that
the calls keep and under which they return; `g` is any observed part of the
state that a call of `h` changes by `fc h` and a call of `Handle(e)` by `fs e`. -/
theorem rangeHandlers_spec (P : Program H S σ) (Inv : World H S σ → Prop)
    (g : World H S σ → γ) (fc : H → γ → γ) (fs : GoError → γ → γ) (hs : List H)
    (hcall : ∀ h ∈ hs, ∀ v, Inv v →
      ∃ res v', P.call h v = .ret res v' ∧ Inv v' ∧ g v' = fc h (g v))
    (hsink : ∀ e v, Inv v → ∃ v', report P e v = .ret () v' ∧ Inv v' ∧ g v' = fs e (g v)) :
    ∀ w, Inv w → ∃ w', (rangeHandlers P hs w).out = .ret () w' ∧ Inv w'
      ∧ invoked (rangeHandlers P hs w).trace = hs
      ∧ g w' = observe fc fs (rangeHandlers P hs w).trace (g w) := by
  induction hs with
  | nil => intro w hw; exact ⟨w, rfl, hw, rfl, rfl⟩
  | cons h rest ih =>
    intro w hw
    have ih1 := ih (fun k hk => hcall k (List.mem_cons_of_mem _ hk))
    obtain ⟨res, w1, hc, hw1, hg1⟩ := hcall h (List.mem_cons_self _ _) w hw
    cases res with
    | none =>
      obtain ⟨w', ho, hw', hi, hg⟩ := ih1 w1 hw1
      refine ⟨w', ?_, hw', ?_, ?_⟩
      · simp [rangeHandlers, hc, ho]
      · simp [rangeHandlers, hc, hi, invoked]
      · simp [rangeHandlers, hc, observe, hg, hg1]
    | some e =>
      obtain ⟨w2, hr, hw2, hg2⟩ := hsink e w1 hw1
      obtain ⟨w', ho, hw', hi, hg⟩ := ih1 w2 hw2
      refine ⟨w', ?_, hw', ?_, ?_⟩
      · simp [rangeHandlers, hc, hr, ho]
      · simp [rangeHandlers, hc, hr, hi, invoked]
      · simp [rangeHandlers, hc, hr, observe, hg, hg1, hg2]

/-- The loop when every callee returns, without an observed part. -/
theorem rangeHandlers_returns (P : Program H S σ) (Inv : World H S σ → Prop) (hs : List H)
    (hcall : ∀ h ∈ hs, ∀ v, Inv v → ∃ res v', P.call h v = .ret res v' ∧ Inv v')
    (hsink : ∀ e v, Inv v → ∃ v', report P e v = .ret () v' ∧ Inv v') :
    ∀ w, Inv w → ∃ w', (rangeHandlers P hs w).out = .ret () w' ∧ Inv w'
      ∧ invoked (rangeHandlers P hs w).trace = hs := by
  intro w hw
  obtain ⟨w', ho, hw', hi, _⟩ :=
    rangeHandlers_spec P Inv (fun _ => ()) (fun _ u => u) (fun _ u => u) hs
      (fun h hh v hv => by
        obtain ⟨res, v', h1, h2⟩ := hcall h hh v hv
        exact ⟨res, v', h1, h2, rfl⟩)
      (fun e v hv => by
        obtain ⟨v', h1, h2⟩ := hsink e v hv
        exact ⟨v', h1, h2, rfl⟩) w hw
  exact ⟨w', ho, hw', hi⟩

/-- The errors the loop passes to `Handle` are the non-nil results of the
handlers it invoked, however the loop ends. -/
theorem rangeHandlers_reported (P : Program H S σ) (hs : List H) (w : World H S σ) :
    reported (rangeHandlers P hs w).trace = (results (rangeHandlers P hs w).trace).reduceOption := by
  induction hs generalizing w with
  | nil => rfl
  | cons h rest ih =>
    unfold rangeHandlers
    cases hc : P.call h w with
    | panic p w1 => simp [reported, results]
    | ret res w1 =>
      cases res with
      | none => simp [reported, results, ih, List.reduceOption_cons_of_none]
      | some e =>
        simp only []
        cases hr : report P e w1 with
        | panic p w2 => simp [reported, results, List.reduceOption_cons_of_some]
        | ret u w2 => simp [reported, results, ih, List.reduceOption_cons_of_some]

/-- The loop invokes an initial segment of the list it started with: no handler
is skipped, repeated or taken out of order. -/
theorem rangeHandlers_invoked_initial (P : Program H S σ) (hs : List H) (w : World H S σ) :
    invoked (rangeHandlers P hs w).trace <+: hs := by
  induction hs generalizing w with
  | nil => simp [rangeHandlers, invoked]
  | cons h rest ih =>
    unfold rangeHandlers
    cases hc : P.call h w with
    | panic p w1 => simp [invoked, List.cons_prefix_cons]
    | ret res w1 =>
      cases res with
      | none => simpa [invoked, List.cons_prefix_cons] using ih w1
      | some e =>
        simp only []
        cases hr : report P e w1 with
        | panic p w2 => simp [invoked, List.cons_prefix_cons]
        | ret u w2 => simpa [invoked, List.cons_prefix_cons] using ih w2

/-- When the loop returns, every handler of the list has returned a value; if
what a handler returns is fixed by `resOf`, the values are those of `resOf`. -/
theorem rangeHandlers_results (P : Program H S σ) (hs : List H) (w w' : World H S σ)
    (hret : (rangeHandlers P hs w).out = .ret () w') :
    (results (rangeHandlers P hs w).trace).length = hs.length
    ∧ ∀ resOf : H → Option GoError,
        (∀ h ∈ hs, ∀ v res v', P.call h v = .ret res v' → res = resOf h) →
        results (rangeHandlers P hs w).trace = hs.map resOf := by
  induction hs generalizing w with
  | nil => exact ⟨rfl, fun _ _ => rfl⟩
  | cons h rest ih =>
    unfold rangeHandlers at hret ⊢
    cases hc : P.call h w with
    | panic p w1 => simp [hc] at hret
    | ret res w1 =>
      cases res with
      | none =>
        simp only [hc, after_out] at hret
        obtain ⟨hl, hm⟩ := ih w1 hret
        refine ⟨by simp [results, hl], fun resOf hres => ?_⟩
        have h1 := hres h (List.mem_cons_self _ _) w none w1 hc
        have h2 := hm resOf (fun k hk => hres k (List.mem_cons_of_mem _ hk))
        simp [results, h2, ← h1]
      | some e =>
        simp only [hc] at hret ⊢
        cases hr : report P e w1 with
        | panic p w2 => simp [hr] at hret
        | ret u w2 =>
          simp only [hr, after_out] at hret
          obtain ⟨hl, hm⟩ := ih w2 hret
          refine ⟨by simp [results, hl], fun resOf hres => ?_⟩
          have h1 := hres h (List.mem_cons_self _ _) w (some e) w1 hc
          have h2 := hm resOf (fun k hk => hres k (List.mem_cons_of_mem _ hk))
          simp [results, h2, ← h1]

/-- Without a panic in progress `Shutdown` is the loop over the handlers. -/
theorem Shutdown_none (P : Program H S σ) (w : World H S σ) :
    Shutdown P none w = rangeHandlers P w.m.handlers w := rfl

/-- A handler of the tests that is made by `Func`, or that returns a fixed
value, returns; it leaves the Manager and the recording sink alone and does
not clear the flag. -/
theorem testProgram_returns (h : TestHandler) (hp : ∀ p, h ≠ .panics p)
    (v : TestWorld) : ∃ res v', testProgram.call h v = .ret res v' ∧ v'.m = v.m
      ∧ v'.heap.sink = v.heap.sink ∧ (v.heap.flag = true → v'.heap.flag = true) := by
  cases h with
  | panics p => exact absurd rfl (hp p)
  | returns err => exact ⟨err, v, rfl, rfl, rfl, id⟩
  | func fn =>
    cases fn with
    | appendIndex index => exact ⟨_, _, rfl, rfl, rfl, id⟩
    | setCalled => exact ⟨_, _, rfl, rfl, rfl, fun _ => rfl⟩
    | panics p => exact ⟨_, _, rfl, rfl, rfl, id⟩

/-- The loop over a list in two parts: when the first part returns, the second
part runs from the state the first part left. -/
theorem rangeHandlers_append (P : Program H S σ) (xs ys : List H) (w w1 : World H S σ)
    (hx : (rangeHandlers P xs w).out = .ret () w1) :
    rangeHandlers P (xs ++ ys) w
      = (rangeHandlers P ys w1).after (rangeHandlers P xs w).trace := by
  induction xs generalizing w with
  | nil =>
    simp only [rangeHandlers] at hx
    injection hx with _ h2
    subst h2
    rfl
  | cons h rest ih =>
    rw [List.cons_append, rangeHandlers]
    rw [rangeHandlers] at hx
    cases hc : P.call h w with
    | panic p w2 => simp [hc] at hx
    | ret res w2 =>
      cases res with
      | none =>
        simp only [hc, after_out] at hx ⊢
        rw [ih w2 hx]
        simp [Run.after, rangeHandlers, hc]
      | some e =>
        simp only [hc] at hx ⊢
        cases hr : report P e w2 with
        | panic p w3 => simp [hr] at hx
        | ret u w3 =>
          simp only [hr, after_out] at hx ⊢
          rw [ih w3 hx]
          simp [Run.after, rangeHandlers, hc, hr]

/-- When every callee returns and none clears a flag, the flag is set after the
loop as soon as it was set before or a handler of the list sets it. -/
theorem rangeHandlers_flag (P : Program H S σ) (Inv : World H S σ → Prop)
    (flag : World H S σ → Bool) (H2 : H) (hs : List H)
    (hcall : ∀ h ∈ hs, ∀ v, Inv v →
      ∃ res v', P.call h v = .ret res v' ∧ Inv v' ∧ (flag v = true → flag v' = true))
    (hsink : ∀ e v, Inv v →
      ∃ v', report P e v = .ret () v' ∧ Inv v' ∧ (flag v = true → flag v' = true))
    (hH2 : ∀ v res v', Inv v → P.call H2 v = .ret res v' → flag v' = true) :
    ∀ w, Inv w → (flag w = true ∨ H2 ∈ hs) →
      ∃ w', (rangeHandlers P hs w).out = .ret () w' ∧ flag w' = true := by
  induction hs with
  | nil =>
    intro w _ hf
    rcases hf with hf | hf
    · exact ⟨w, rfl, hf⟩
    · simp at hf
  | cons h rest ih =>
    intro w hw hf
    have ih1 := ih (fun k hk => hcall k (List.mem_cons_of_mem _ hk))
    obtain ⟨res, w1, hc, hw1, hf1⟩ := hcall h (List.mem_cons_self _ _) w hw
    have hnext : flag w1 = true ∨ H2 ∈ rest := by
      rcases hf with hf | hf
      · exact Or.inl (hf1 hf)
      · rcases List.mem_cons.mp hf with heq | hmem
        · subst heq
          exact Or.inl (hH2 w res w1 hw hc)
        · exact Or.inr hmem
    cases res with
    | none =>
      obtain ⟨w', ho, hfw⟩ := ih1 w1 hw1 hnext
      exact ⟨w', by simp [rangeHandlers, hc, ho], hfw⟩
    | some e =>
      obtain ⟨w2, hr, hw2, hf2⟩ := hsink e w1 hw1
      have hnext2 : flag w2 = true ∨ H2 ∈ rest := by
        rcases hnext with hn | hn
        · exact Or.inl (hf2 hn)
        · exact Or.inr hn
      obtain ⟨w', ho, hfw⟩ := ih1 w2 hw2 hnext2
      exact ⟨w', by simp [rangeHandlers, hc, hr, ho], hfw⟩

/-! ## C1: every handler is invoked once, in order -/

/-- C1, as stated, fails: a handler that returns an error has `Shutdown` call
`Handle` on the Error Sink, and when that call panics no later handler is
invoked.  Here the handlers are `func() error { return error }` and the first
handler of `CreateOrderedShutdownFuncs`; both return in every state.  On the
zero Manager (nil `ErrorHandler`) and on a Manager whose sink panics with
`sink down`, only the first handler is invoked and `Shutdown` unwinds. -/
theorem Shutdown_stops_when_sink_panics :
    (∀ h ∈ [TestHandler.returns (some (.errorString "error")), .func (.appendIndex 0)],
        ∀ v : TestWorld, ∃ res v', testProgram.call h v = .ret res v')
    ∧ (zeroWorld [.returns (some (.errorString "error")), .func (.appendIndex 0)]).m.handlers
        = [.returns (some (.errorString "error")), .func (.appendIndex 0)]
    ∧ invoked (Shutdown testProgram none
          (zeroWorld [.returns (some (.errorString "error")), .func (.appendIndex 0)])).trace
        = [.returns (some (.errorString "error"))]
    ∧ invoked (Shutdown testProgram none
          (zeroWorld [.returns (some (.errorString "error")), .func (.appendIndex 0)])).trace
        ≠ (zeroWorld [.returns (some (.errorString "error")), .func (.appendIndex 0)]).m.handlers
    ∧ (Shutdown testProgram none
          (zeroWorld [.returns (some (.errorString "error")), .func (.appendIndex 0)])).out
        = .panic (some nilDereference)
            (zeroWorld [.returns (some (.errorString "error")), .func (.appendIndex 0)])
    ∧ invoked (Shutdown testProgram none
          { m := { handlers := [.returns (some (.errorString "error")), .func (.appendIndex 0)],
                   ErrorHandler := some (.impl (.panicking (some (.str "sink down")))) },
            heap := TestHeap.init }).trace
        = [.returns (some (.errorString "error"))]
    ∧ (Shutdown testProgram none
          { m := { handlers := [.returns (some (.errorString "error")), .func (.appendIndex 0)],
                   ErrorHandler := some (.impl (.panicking (some (.str "sink down")))) },
            heap := TestHeap.init }).out
        = .panic (some (.str "sink down"))
          { m := { handlers := [.returns (some (.errorString "error")), .func (.appendIndex 0)],
                   ErrorHandler := some (.impl (.panicking (some (.str "sink down")))) },
            heap := TestHeap.init } := by
  refine ⟨?_, by decide, by decide, by decide, by decide, by decide, by decide⟩
  intro h hh v
  obtain ⟨res, v', hc, _⟩ := testProgram_returns h (by
    intro p hp
    subst hp
    simp at hh) v
  exact ⟨res, v', hc⟩

/-- C1 (amended): on a Manager whose handlers all return (with nil or with an
error) and whose Error Sink returns from every `Handle` that `Shutdown` calls,
one call of `Shutdown` returns and has invoked every handler of the sequence
exactly once, in the order of the sequence, whatever the handlers returned.
When each handler appends its index to a log that `Handle` leaves alone, the
log has grown by the indices in the order of the sequence; so when the indices
are `1, ..., n` and the log was empty, the log is `[1, ..., n]`.
`Inv` is any property of the state that the calls keep and under which they
return, for instance that `ErrorHandler` holds a given sink. -/
theorem Shutdown_invokes_every_handler_in_order
    (P : Program H S σ) (Inv : World H S σ → Prop) (w : World H S σ)
    (h0 : Inv w)
    (hcall : ∀ h ∈ w.m.handlers, ∀ v, Inv v → ∃ res v', P.call h v = .ret res v' ∧ Inv v')
    (hsink : ∀ e v, Inv v → ∃ v', report P e v = .ret () v' ∧ Inv v') :
    ∃ w', (Shutdown P none w).out = .ret () w'
      ∧ invoked (Shutdown P none w).trace = w.m.handlers
      ∧ ∀ (log : World H S σ → List Nat) (idx : H → Nat),
          (∀ h ∈ w.m.handlers, ∀ v res v', Inv v → P.call h v = .ret res v' →
              log v' = log v ++ [idx h]) →
          (∀ e v v', Inv v → report P e v = .ret () v' → log v' = log v) →
          log w' = log w ++ w.m.handlers.map idx
            ∧ (log w = [] → w.m.handlers.map idx = List.range' 1 w.m.handlers.length →
                log w' = List.range' 1 w.m.handlers.length) := by
  obtain ⟨w', ho, _, hi⟩ := rangeHandlers_returns P Inv w.m.handlers hcall hsink w h0
  refine ⟨w', by rw [Shutdown_none]; exact ho, by rw [Shutdown_none]; exact hi, ?_⟩
  intro log idx hlog hlogsink
  obtain ⟨w'', ho', _, hi', hg⟩ :=
    rangeHandlers_spec P Inv log (fun h l => l ++ [idx h]) (fun _ l => l) w.m.handlers
      (fun h hh v hv => by
        obtain ⟨res, v', h1, h2⟩ := hcall h hh v hv
        exact ⟨res, v', h1, h2, hlog h hh v res v' hv h1⟩)
      (fun e v hv => by
        obtain ⟨v', h1, h2⟩ := hsink e v hv
        exact ⟨v', h1, h2, hlogsink e v v' hv h1⟩) w h0
  have hw : w'' = w' := by
    rw [ho] at ho'
    injection ho' with _ h2
    exact h2.symm
  subst hw
  have hlog' : log w'' = log w ++ w.m.handlers.map idx := by
    rw [hg, observe_log, hi']
  refine ⟨hlog', ?_⟩
  intro hempty hidx
  rw [hlog', hempty, hidx, List.nil_append]

/-- C1 (amended) at the test `TestManager_Register_ExecutedInOrder`, with a
recording sink installed: the two handlers of `CreateOrderedShutdownFuncs(2)`
are invoked in order and the log `called` is `[1, 2]`. -/
theorem Shutdown_invokes_every_handler_in_order_witness :
    ∃ w', (Shutdown testProgram none (recordingWorld (CreateOrderedShutdownFuncs 2))).out
        = .ret () w'
      ∧ invoked (Shutdown testProgram none (recordingWorld (CreateOrderedShutdownFuncs 2))).trace
        = CreateOrderedShutdownFuncs 2
      ∧ w'.heap.called = [1, 2] := by
  have hm : ∀ v v' : TestWorld, ∀ e, report testProgram e v = .ret () v' →
      v.m.ErrorHandler = some (.impl .recorder) → v'.m = v.m ∧ v'.heap.called = v.heap.called := by
    intro v v' e he hv
    simp only [report, hv, testProgram] at he
    injection he with _ h2
    subst h2
    exact ⟨rfl, rfl⟩
  obtain ⟨w', ho, hi, hlog⟩ :=
    Shutdown_invokes_every_handler_in_order testProgram
      (fun v => v.m.ErrorHandler = some (.impl .recorder))
      (recordingWorld (CreateOrderedShutdownFuncs 2)) rfl
      (fun h hh v hv => by
        obtain ⟨res, v', hc, hmv, _⟩ := testProgram_returns h (by
          intro p hp
          subst hp
          simp [recordingWorld, CreateOrderedShutdownFuncs, Manager.Register, NewManager,
            List.range, List.range.loop] at hh) v
        exact ⟨res, v', hc, by show v'.m.ErrorHandler = _; rw [hmv]; exact hv⟩)
      (fun e v hv => by
        refine ⟨{ v with heap := { v.heap with sink := v.heap.sink.Handle e } }, ?_, hv⟩
        simp only [report, hv, testProgram])
  refine ⟨w', ho, hi, ?_⟩
  have h := (hlog (fun v => v.heap.called)
    (fun h => match h with
      | .func (.appendIndex index) => index + 1
      | _ => 0)
    (fun h hh v res v' _ hc => by
      simp [recordingWorld, CreateOrderedShutdownFuncs, Manager.Register, NewManager,
        List.range, List.range.loop] at hh
      rcases hh with rfl | rfl <;>
      · simp only [testProgram, Func, TestFn.run] at hc
        injection hc with _ h2
        subst h2
        rfl)
    (fun e v v' hv he => (hm v v' e he hv).2)).1
  simpa [recordingWorld, CreateOrderedShutdownFuncs, TestHeap.init, Manager.Register,
    NewManager, List.range, List.range.loop] using h

/-! ## C2: RegisterAsFirst prepends -/

/-- C2: after `RegisterAsFirst(new...)` on a Manager with handler sequence
`old` the sequence is exactly `new ++ old`, for an argument list of any length:
with no argument the Manager is unchanged, the first argument (when there is
one) is the new first handler, the arguments keep their order, the handlers
registered before follow as an unchanged block, and the Error Sink is not
touched.  In particular after `Register(H2)` and `RegisterAsFirst(H1)` on a new
Manager the sequence is `[H1, H2]`, and `Shutdown` invokes `H1` first and never
`H2` before it: the handlers it invokes are an initial segment of `[H1, H2]`
that starts with `H1`, and both, in that order, as soon as the call of `H1`
returns nil (as the handlers of the test do) or returns an error and leaves
the no-op sink of the new Manager installed. -/
theorem RegisterAsFirst_prepends (m : Manager H S) (new : List H) :
    (m.RegisterAsFirst new).handlers = new ++ m.handlers
    ∧ (m.RegisterAsFirst new).ErrorHandler = m.ErrorHandler
    ∧ m.RegisterAsFirst [] = m
    ∧ (∀ h rest, new = h :: rest → (m.RegisterAsFirst new).handlers.head? = some h)
    ∧ (m.RegisterAsFirst new).handlers.take new.length = new
    ∧ (m.RegisterAsFirst new).handlers.drop new.length = m.handlers
    ∧ ∀ (P : Program H S σ) (heap : σ) (H1 H2 : H),
        ((NewManager : Manager H S).Register [H2]).RegisterAsFirst [H1]
            = { handlers := [H1, H2], ErrorHandler := some .noop }
        ∧ invoked (Shutdown P none
            ⟨((NewManager : Manager H S).Register [H2]).RegisterAsFirst [H1], heap⟩).trace
            <+: [H1, H2]
        ∧ (invoked (Shutdown P none
            ⟨((NewManager : Manager H S).Register [H2]).RegisterAsFirst [H1], heap⟩).trace).head?
            = some H1
        ∧ ∀ res v,
            P.call H1 ⟨((NewManager : Manager H S).Register [H2]).RegisterAsFirst [H1], heap⟩
                = .ret res v →
            (res = none ∨ v.m.ErrorHandler = some .noop) →
            invoked (Shutdown P none
              ⟨((NewManager : Manager H S).Register [H2]).RegisterAsFirst [H1], heap⟩).trace
              = [H1, H2] := by
  refine ⟨rfl, rfl, rfl, ?_, ?_, ?_, ?_⟩
  · intro h rest hnew
    subst hnew
    rfl
  · simp [Manager.RegisterAsFirst]
  · simp [Manager.RegisterAsFirst]
  · intro P heap H1 H2
    have hsecond : ∀ v, invoked (rangeHandlers P [H2] v).trace = [H2] := by
      intro v
      unfold rangeHandlers
      cases hc : P.call H2 v with
      | panic p w1 => rfl
      | ret res w1 =>
        cases res with
        | none => rfl
        | some e =>
          simp only []
          cases hr : report P e w1 <;> rfl
    refine ⟨rfl, ?_, ?_, ?_⟩
    · exact rangeHandlers_invoked_initial P _ _
    · rw [Shutdown_none]
      simp only [Manager.RegisterAsFirst, Manager.Register, NewManager, List.nil_append,
        List.singleton_append]
      unfold rangeHandlers
      cases hc : P.call H1 _ with
      | panic p w1 => rfl
      | ret res w1 =>
        cases res with
        | none => rfl
        | some e =>
          simp only []
          cases hr : report P e w1 <;> rfl
    · intro res v hv hres
      rw [Shutdown_none]
      simp only [Manager.RegisterAsFirst, Manager.Register, NewManager, List.nil_append,
        List.singleton_append] at hv ⊢
      rw [rangeHandlers, hv]
      cases res with
      | none => simp [invoked, hsecond]
      | some e =>
        have hnoop : v.m.ErrorHandler = some .noop := by
          rcases hres with h | h
          · exact Option.noConfusion h
          · exact h
        have hr : report P e v = .ret () v := by simp only [report, hnoop]
        simp [hr, invoked, hsecond]

/-- C2 at the test `TestManager_RegisterAsFirst`: `Register(funcs[1])`, then
`RegisterAsFirst(funcs[0])`, then `Shutdown`; the first handler returns nil, both
handlers are invoked in the order `funcs[0], funcs[1]` and the log is `[1, 2]`. -/
theorem RegisterAsFirst_prepends_witness :
    testProgram.call (.func (.appendIndex 0)) registerAsFirstWorld
      = .ret none { registerAsFirstWorld with heap := { TestHeap.init with called := [1] } }
    ∧ invoked (Shutdown testProgram none registerAsFirstWorld).trace
      = [.func (.appendIndex 0), .func (.appendIndex 1)]
    ∧ (Shutdown testProgram none registerAsFirstWorld).out
      = .ret () { registerAsFirstWorld with heap := { TestHeap.init with called := [1, 2] } } :=
  ⟨by decide,
   ((RegisterAsFirst_prepends (NewManager : Manager TestHandler TestSink)
      [.func (.appendIndex 0)]).2.2.2.2.2.2 testProgram TestHeap.init
      (.func (.appendIndex 0)) (.func (.appendIndex 1))).2.2.2 none
      { registerAsFirstWorld with heap := { TestHeap.init with called := [1] } } (by decide)
      (Or.inl rfl),
   by decide⟩

/-! ## C3: Register appends -/

/-- C3: after `Register(new...)` on a Manager with handler sequence `old` the
sequence is exactly `old ++ new` and the Error Sink is not touched; with no
argument the Manager is unchanged; nothing is merged or dropped, so a handler
occurs as often as it did before plus as often as it is among the arguments,
and registering the same handler twice makes it occur twice more. -/
theorem Register_appends [DecidableEq H] (m : Manager H S) (new : List H) :
    (m.Register new).handlers = m.handlers ++ new
    ∧ (m.Register new).ErrorHandler = m.ErrorHandler
    ∧ m.Register [] = m
    ∧ (m.Register new).handlers.length = m.handlers.length + new.length
    ∧ (m.Register new).handlers.take m.handlers.length = m.handlers
    ∧ (m.Register new).handlers.drop m.handlers.length = new
    ∧ (∀ h, (m.Register new).handlers.count h = m.handlers.count h + new.count h)
    ∧ ∀ h, (m.Register [h, h]).handlers = m.handlers ++ [h, h]
        ∧ (m.Register [h, h]).handlers.count h = m.handlers.count h + 2 := by
  refine ⟨rfl, rfl, ?_, ?_, ?_, ?_, ?_, ?_⟩
  · simp [Manager.Register]
  · simp [Manager.Register]
  · simp [Manager.Register]
  · simp [Manager.Register]
  · intro h
    simp [Manager.Register]
  · intro h
    simp [Manager.Register]

/-! ## C4: the sink receives the non-nil results -/

/-- C4: on a Manager with a recording Error Sink (the sink `s` is installed and
stays so, its `Handle` appends the error to the record `rec` and returns, and
the handlers leave the record alone) whose handlers all return, `Shutdown`
called with no panic in progress returns after invoking every handler, and the
errors passed to `Handle` are exactly the non-nil results of the handlers, in
the order of registration, each unchanged: the record has grown by exactly
them.  Nothing is reported for a handler that returns nil, so the sink is not
invoked when no handler fails, and nothing at all happens with no handler
registered.  The last error of the record is the result of the last failing
handler.  When what each handler returns is fixed (`resOf`), the reported
errors are the non-nil ones among the values of the handler sequence. -/
theorem Shutdown_reports_nonnil_results
    (P : Program H S σ) (s : S) (rec : World H S σ → testErrorHandler) (w : World H S σ)
    (hs0 : w.m.ErrorHandler = some (.impl s))
    (hcall : ∀ h ∈ w.m.handlers, ∀ v, v.m.ErrorHandler = some (.impl s) →
      ∃ res v', P.call h v = .ret res v' ∧ v'.m.ErrorHandler = some (.impl s) ∧ rec v' = rec v)
    (hHandle : ∀ e v, ∃ v', P.Handle s e v = .ret () v'
      ∧ v'.m.ErrorHandler = v.m.ErrorHandler ∧ rec v' = (rec v).Handle e) :
    ∃ w', (Shutdown P none w).out = .ret () w'
      ∧ invoked (Shutdown P none w).trace = w.m.handlers
      ∧ (results (Shutdown P none w).trace).length = w.m.handlers.length
      ∧ reported (Shutdown P none w).trace = (results (Shutdown P none w).trace).reduceOption
      ∧ (rec w').errors = (rec w).errors ++ (results (Shutdown P none w).trace).reduceOption
      ∧ ((∀ res ∈ results (Shutdown P none w).trace, res = none) →
          reported (Shutdown P none w).trace = [] ∧ rec w' = rec w)
      ∧ (w.m.handlers = [] → (Shutdown P none w).trace = [] ∧ w' = w)
      ∧ (∀ E, (results (Shutdown P none w).trace).reduceOption.getLast? = some E →
          (rec w').Last = some E)
      ∧ ∀ resOf : H → Option GoError,
          (∀ h ∈ w.m.handlers, ∀ v res v', P.call h v = .ret res v' → res = resOf h) →
          reported (Shutdown P none w).trace = w.m.handlers.filterMap resOf := by
  rw [Shutdown_none]
  obtain ⟨w', ho, _, hi, hg⟩ :=
    rangeHandlers_spec P (fun v => v.m.ErrorHandler = some (.impl s)) rec
      (fun _ t => t) (fun e t => testErrorHandler.Handle t e) w.m.handlers hcall
      (fun e v hv => by
        obtain ⟨v', h1, h2, h3⟩ := hHandle e v
        refine ⟨v', ?_, h2.trans hv, h3⟩
        simp only [report, hv, h1]) w hs0
  have hrep := rangeHandlers_reported P w.m.handlers w
  obtain ⟨hlen, hmap⟩ := rangeHandlers_results P w.m.handlers w w' ho
  rw [observe_recorder, hrep] at hg
  have herr : (rec w').errors
      = (rec w).errors ++ (results (rangeHandlers P w.m.handlers w).trace).reduceOption := by
    rw [hg]
  refine ⟨w', ho, hi, hlen, hrep, herr, ?_, ?_, ?_, ?_⟩
  · intro hnone
    have hnil : (results (rangeHandlers P w.m.handlers w).trace).reduceOption = [] := by
      rw [List.reduceOption, List.filterMap_eq_nil_iff]
      intro a ha
      simp [hnone a ha]
    refine ⟨by rw [hrep, hnil], ?_⟩
    rw [hg, hnil, List.append_nil]
  · intro hnil
    rw [hnil] at ho ⊢
    simp only [rangeHandlers] at ho ⊢
    injection ho with _ h2
    exact ⟨trivial, h2.symm⟩
  · intro E hE
    rw [Last_eq_getLast?, herr, List.getLast?_append, hE]
    rfl
  · intro resOf hres
    rw [hrep, hmap resOf hres, List.reduceOption, List.filterMap_map]
    rfl

/-- C4 at the test `TestManager_Shutdown_HandleErrors`, with a handler that
returns nil registered after the failing one: the recording sink's `Last` is
exactly the error the handler returned. -/
theorem Shutdown_reports_nonnil_results_witness :
    ∃ w', (Shutdown testProgram none
        (recordingWorld [.returns (some (.custom 7 "error")), .returns none])).out = .ret () w'
      ∧ reported (Shutdown testProgram none
        (recordingWorld [.returns (some (.custom 7 "error")), .returns none])).trace
          = [.custom 7 "error"]
      ∧ w'.heap.sink.Last = some (.custom 7 "error") := by
  obtain ⟨w', ho, _, _, _, _, _, _, hlast, hres⟩ :=
    Shutdown_reports_nonnil_results testProgram TestSink.recorder (fun v => v.heap.sink)
      (recordingWorld [.returns (some (.custom 7 "error")), .returns none]) rfl
      (fun h hh v hv => by
        simp [recordingWorld, Manager.Register, NewManager] at hh
        rcases hh with rfl | rfl
        · exact ⟨_, v, rfl, hv, rfl⟩
        · exact ⟨_, v, rfl, hv, rfl⟩)
      (fun e v => ⟨_, rfl, rfl, rfl⟩)
  refine ⟨w', ho, by decide, hlast _ (by decide)⟩

/-! ## C5: a failing handler and the handlers after it -/

/-- C5, as stated, fails: the failure of a handler is passed to `Handle`, and
when `Handle` panics the handlers after it are not invoked.  `H1` returns the
error `E` and `H2`, the handler of `CreateShutdownFunc`, sets the flag, in every
state.  On a Manager whose sink panics with `sink down`, `Shutdown` invokes `H1`
only and unwinds with the flag not set; on the zero Manager the same happens
and `E` reaches no sink.  With `H1` returning nil instead, the same Manager
runs `H2` and the flag is set: it is the failure of `H1` that kept `H2` from
running. -/
theorem failure_stops_later_handler_when_sink_panics :
    (panickingWorld (some (.str "sink down"))
        [.returns (some (.custom 7 "error")), CreateShutdownFunc]).m.handlers
      = [.returns (some (.custom 7 "error")), CreateShutdownFunc]
    ∧ (∀ v : TestWorld, testProgram.call (.returns (some (.custom 7 "error"))) v
        = .ret (some (.custom 7 "error")) v)
    ∧ (∀ v : TestWorld, testProgram.call CreateShutdownFunc v
        = .ret none { v with heap := { v.heap with flag := true } })
    ∧ Shutdown testProgram none (panickingWorld (some (.str "sink down"))
        [.returns (some (.custom 7 "error")), CreateShutdownFunc])
      = { trace := [.call (.returns (some (.custom 7 "error"))),
                    .result (some (.custom 7 "error")),
                    .handle (some (.impl (.panicking (some (.str "sink down")))))
                      (.custom 7 "error")],
          out := .panic (some (.str "sink down")) (panickingWorld (some (.str "sink down"))
            [.returns (some (.custom 7 "error")), CreateShutdownFunc]) }
    ∧ (panickingWorld (some (.str "sink down"))
        [.returns (some (.custom 7 "error")), CreateShutdownFunc]).heap.flag = false
    ∧ Shutdown testProgram none
        (zeroWorld [.returns (some (.custom 7 "error")), CreateShutdownFunc])
      = { trace := [.call (.returns (some (.custom 7 "error"))),
                    .result (some (.custom 7 "error")),
                    .handle none (.custom 7 "error")],
          out := .panic (some nilDereference)
            (zeroWorld [.returns (some (.custom 7 "error")), CreateShutdownFunc]) }
    ∧ (zeroWorld [.returns (some (.custom 7 "error")), CreateShutdownFunc]).heap.flag = false
    ∧ (Shutdown testProgram none
        (panickingWorld (some (.str "sink down")) [.returns none, CreateShutdownFunc])).out
      = .ret () { panickingWorld (some (.str "sink down")) [.returns none, CreateShutdownFunc]
                  with heap := { TestHeap.init with flag := true } } :=
  ⟨by decide, fun _ => rfl, fun _ => rfl, by decide, by decide, by decide, by decide, by decide⟩

/-- C5 (amended): on a Manager whose handlers all return and whose Error Sink
returns from every `Handle` that `Shutdown` calls, a handler's failure does not
prevent the execution of the handlers after it.  When a handler `H1` that fails
with the error `E` is registered before a handler `H2` that sets a flag which
no call made by `Shutdown` clears, `Shutdown` returns with the flag set and
has passed `E` to the Error Sink; all handlers were invoked, and `H2` was
invoked after `E` was reported.
`Inv` is any property of the state that the calls keep and under which they
return. -/
theorem failure_does_not_stop_later_handlers
    (P : Program H S σ) (Inv : World H S σ → Prop) (flag : World H S σ → Bool)
    (w : World H S σ) (before between behind : List H) (H1 H2 : H) (E : GoError)
    (hseq : w.m.handlers = before ++ H1 :: (between ++ H2 :: behind))
    (h0 : Inv w)
    (hcall : ∀ h ∈ w.m.handlers, ∀ v, Inv v →
      ∃ res v', P.call h v = .ret res v' ∧ Inv v' ∧ (flag v = true → flag v' = true))
    (hsink : ∀ e v, Inv v →
      ∃ v', report P e v = .ret () v' ∧ Inv v' ∧ (flag v = true → flag v' = true))
    (hH1 : ∀ v res v', Inv v → P.call H1 v = .ret res v' → res = some E)
    (hH2 : ∀ v res v', Inv v → P.call H2 v = .ret res v' → flag v' = true) :
    ∃ w', (Shutdown P none w).out = .ret () w'
      ∧ flag w' = true
      ∧ E ∈ reported (Shutdown P none w).trace
      ∧ invoked (Shutdown P none w).trace = w.m.handlers
      ∧ ∃ t1 t2 s, (Shutdown P none w).trace = t1 ++ .handle s E :: t2 ∧ H2 ∈ invoked t2 := by
  rw [Shutdown_none]
  have hcall0 : ∀ h ∈ w.m.handlers, ∀ v, Inv v → ∃ res v', P.call h v = .ret res v' ∧ Inv v' :=
    fun h hh v hv => by
      obtain ⟨res, v', h1, h2, _⟩ := hcall h hh v hv
      exact ⟨res, v', h1, h2⟩
  have hsink0 : ∀ e v, Inv v → ∃ v', report P e v = .ret () v' ∧ Inv v' :=
    fun e v hv => by
      obtain ⟨v', h1, h2, _⟩ := hsink e v hv
      exact ⟨v', h1, h2⟩
  have hmem2 : H2 ∈ w.m.handlers := by rw [hseq]; simp
  obtain ⟨w', ho, hflag⟩ :=
    rangeHandlers_flag P Inv flag H2 w.m.handlers hcall hsink hH2 w h0 (Or.inr hmem2)
  obtain ⟨w'', ho', _, hinv⟩ := rangeHandlers_returns P Inv w.m.handlers hcall0 hsink0 w h0
  -- the handlers before H1
  have hcallB : ∀ h ∈ before, ∀ v, Inv v → ∃ res v', P.call h v = .ret res v' ∧ Inv v' :=
    fun h hh => hcall0 h (by rw [hseq]; exact List.mem_append_left _ hh)
  obtain ⟨w1, ho1, hw1, _⟩ := rangeHandlers_returns P Inv before hcallB hsink0 w h0
  -- H1 and the report of its failure
  have hmem1 : H1 ∈ w.m.handlers := by rw [hseq]; simp
  obtain ⟨res, w2, hc, hw2⟩ := hcall0 H1 hmem1 w1 hw1
  have hres : res = some E := hH1 w1 res w2 hw1 hc
  subst hres
  obtain ⟨w3, hr, hw3⟩ := hsink0 E w2 hw2
  -- the handlers after H1
  have hcallR : ∀ h ∈ between ++ H2 :: behind, ∀ v, Inv v →
      ∃ res v', P.call h v = .ret res v' ∧ Inv v' :=
    fun h hh => hcall0 h (by
      rw [hseq]
      exact List.mem_append_right _ (List.mem_cons_of_mem _ hh))
  obtain ⟨w4, _, _, hi4⟩ :=
    rangeHandlers_returns P Inv (between ++ H2 :: behind) hcallR hsink0 w3 hw3
  have htrace : (rangeHandlers P w.m.handlers w).trace
      = ((rangeHandlers P before w).trace ++ [.call H1, .result (some E)])
        ++ .handle w2.m.ErrorHandler E
          :: (rangeHandlers P (between ++ H2 :: behind) w3).trace := by
    rw [hseq, rangeHandlers_append P before _ w w1 ho1]
    simp [rangeHandlers, hc, hr]
  refine ⟨w', ho, hflag, ?_, hinv, _, _, _, htrace, ?_⟩
  · rw [htrace]
    simp [reported]
  · rw [hi4]
    simp

/-- C5 (amended) at a Manager with a recording sink, the failing handler of
`TestManager_Shutdown_HandleErrors` and the handler of `CreateShutdownFunc`: the
flag is set and the error was reported. -/
theorem failure_does_not_stop_later_handlers_witness :
    ∃ w', (Shutdown testProgram none
        (recordingWorld [.returns (some (.custom 7 "error")), CreateShutdownFunc])).out
          = .ret () w'
      ∧ w'.heap.flag = true
      ∧ GoError.custom 7 "error" ∈ reported (Shutdown testProgram none
        (recordingWorld [.returns (some (.custom 7 "error")), CreateShutdownFunc])).trace := by
  obtain ⟨w', ho, hf, hE, _⟩ :=
    failure_does_not_stop_later_handlers testProgram
      (fun v => v.m.ErrorHandler = some (.impl .recorder)) (fun v => v.heap.flag)
      (recordingWorld [.returns (some (.custom 7 "error")), CreateShutdownFunc])
      [] [] [] (.returns (some (.custom 7 "error"))) CreateShutdownFunc (.custom 7 "error")
      rfl rfl
      (fun h hh v hv => by
        obtain ⟨res, v', hc, hmv, _, hfl⟩ := testProgram_returns h (by
          intro p hp
          subst hp
          simp [recordingWorld, CreateShutdownFunc, Manager.Register, NewManager] at hh) v
        exact ⟨res, v', hc, (congrArg Manager.ErrorHandler hmv).trans hv, hfl⟩)
      (fun e v hv => by
        refine ⟨{ v with heap := { v.heap with sink := v.heap.sink.Handle e } }, ?_, hv, id⟩
        simp only [report, hv, testProgram])
      (fun v res v' _ hc => by
        simp only [testProgram] at hc
        injection hc with h1 _
        exact h1.symm)
      (fun v res v' _ hc => by
        simp only [testProgram, CreateShutdownFunc, Func, TestFn.run] at hc
        injection hc with _ h2
        subst h2
        rfl)
  exact ⟨w', ho, hf, hE⟩

/-! ## C6: when Shutdown returns -/

/-- C6, as stated, fails for a Handler that unwinds when invoked: `Shutdown`
calls the handlers without recovering, so the panic leaves `Shutdown`, nothing
is passed to the Error Sink and the handlers after it are not invoked.  Here
the first handler is `func() error { panic("boom") }` and the second the
handler of `CreateShutdownFunc`, on a Manager made by `NewManager` and on one
with a recording sink, which records nothing. -/
theorem Shutdown_unwinds_when_handler_panics :
    Shutdown testProgram none (newWorld [.panics (some (.str "boom")), CreateShutdownFunc])
      = { trace := [.call (.panics (some (.str "boom")))],
          out := .panic (some (.str "boom"))
            (newWorld [.panics (some (.str "boom")), CreateShutdownFunc]) }
    ∧ (∀ w', (Shutdown testProgram none
        (newWorld [.panics (some (.str "boom")), CreateShutdownFunc])).out ≠ .ret () w')
    ∧ reported (Shutdown testProgram none
        (newWorld [.panics (some (.str "boom")), CreateShutdownFunc])).trace = []
    ∧ Shutdown testProgram none
        (recordingWorld [.panics (some (.str "boom")), CreateShutdownFunc])
      = { trace := [.call (.panics (some (.str "boom")))],
          out := .panic (some (.str "boom"))
            (recordingWorld [.panics (some (.str "boom")), CreateShutdownFunc]) }
    ∧ (recordingWorld [.panics (some (.str "boom")), CreateShutdownFunc]).heap.sink.Last = none := by
  refine ⟨by decide, ?_, by decide, by decide, by decide⟩
  intro w' hw'
  have h : (Shutdown testProgram none
      (newWorld [.panics (some (.str "boom")), CreateShutdownFunc])).out
      = .panic (some (.str "boom"))
          (newWorld [.panics (some (.str "boom")), CreateShutdownFunc]) := by decide
  rw [h] at hw'
  exact Res.noConfusion hw'

/-- C6 (amended): when every registered Handler returns when invoked (with nil
or with an error) and the Error Sink returns from every `Handle` that `Shutdown`
calls, `Shutdown` returns normally with no result, with or without a panic in
progress, and every failure has been passed to the Error Sink: the errors
reported are the normalized payload of the panic in progress, if there is one,
followed by the non-nil results of the handlers.  (A callee that unwinds is not
covered: its panic leaves `Shutdown`.)
`Inv` is any property of the state that the calls keep and under which the
handlers registered in such a state and the sink return. -/
theorem Shutdown_returns_when_callees_return
    (P : Program H S σ) (Inv : World H S σ → Prop) (w : World H S σ)
    (recovered : Option Payload)
    (h0 : Inv w)
    (hcall : ∀ v, Inv v → ∀ h ∈ v.m.handlers, ∀ u, Inv u →
      ∃ res u', P.call h u = .ret res u' ∧ Inv u')
    (hsink : ∀ e v, Inv v → ∃ v', report P e v = .ret () v' ∧ Inv v') :
    ∃ w', (Shutdown P recovered w).out = .ret () w'
      ∧ Inv w'
      ∧ reported (Shutdown P recovered w).trace
          = (errors.Recover recovered).toList
            ++ (results (Shutdown P recovered w).trace).reduceOption
      ∧ (results (Shutdown P recovered w).trace).length
          = (invoked (Shutdown P recovered w).trace).length
      ∧ (recovered = none → invoked (Shutdown P recovered w).trace = w.m.handlers) := by
  unfold Shutdown
  cases hrec : errors.Recover recovered with
  | none =>
    obtain ⟨w', ho, hw', hi⟩ :=
      rangeHandlers_returns P Inv w.m.handlers (hcall w h0) hsink w h0
    have hrep := rangeHandlers_reported P w.m.handlers w
    obtain ⟨hlen, _⟩ := rangeHandlers_results P w.m.handlers w w' ho
    refine ⟨w', ho, hw', ?_, ?_, fun _ => hi⟩
    · simpa using hrep
    · simp only []
      rw [hlen, hi]
  | some err =>
    obtain ⟨w1, hr, hw1⟩ := hsink err w h0
    obtain ⟨w', ho, hw', hi⟩ :=
      rangeHandlers_returns P Inv w1.m.handlers (hcall w1 hw1) hsink w1 hw1
    have hrep := rangeHandlers_reported P w1.m.handlers w1
    obtain ⟨hlen, _⟩ := rangeHandlers_results P w1.m.handlers w1 w' ho
    refine ⟨w', ?_, hw', ?_, ?_, ?_⟩
    · simp only [hr, after_out]
      exact ho
    · simp only [hr, after_trace]
      simp [reported, results, hrep]
    · simp only [hr, after_trace]
      simp [results, invoked, hlen, hi]
    · intro hnone
      subst hnone
      simp [errors.Recover] at hrec

/-- C6 (amended) at a Manager with a recording sink, run as a deferred call while
a panic with the payload `main failed` is in progress, with a handler that
fails and a handler made by `Func` of a function that panics: `Shutdown`
returns and the sink has received the three errors in order. -/
theorem Shutdown_returns_when_callees_return_witness :
    ∃ w', (Shutdown testProgram (some (.str "main failed"))
        (recordingWorld [.returns (some (.custom 7 "error")),
          .func (.panics (some (.val (.int 123))))])).out = .ret () w'
      ∧ w'.heap.sink.errors
          = [.errorString "main failed", .custom 7 "error",
             .errorString "Unknown panic, received: 123"] := by
  obtain ⟨w', ho, _⟩ :=
    Shutdown_returns_when_callees_return testProgram
      (fun v => v.m = (recordingWorld [.returns (some (.custom 7 "error")),
          .func (.panics (some (.val (.int 123))))]).m)
      (recordingWorld [.returns (some (.custom 7 "error")),
          .func (.panics (some (.val (.int 123))))])
      (some (.str "main failed")) rfl
      (fun v hv h hh u hu => by
        obtain ⟨res, u', hc, hmu, _⟩ := testProgram_returns h (by
          intro p hp
          subst hp
          rw [hv] at hh
          simp [recordingWorld, Manager.Register, NewManager] at hh) u
        exact ⟨res, u', hc, hmu.trans hu⟩)
      (fun e v hv => by
        refine ⟨{ v with heap := { v.heap with sink := v.heap.sink.Handle e } }, ?_, hv⟩
        simp only [report, hv, testProgram, recordingWorld, Manager.Register, NewManager])
  refine ⟨w', ho, ?_⟩
  have h : (Shutdown testProgram (some (.str "main failed"))
        (recordingWorld [.returns (some (.custom 7 "error")),
          .func (.panics (some (.val (.int 123))))])).out
      = .ret () { recordingWorld [.returns (some (.custom 7 "error")),
                    .func (.panics (some (.val (.int 123))))] with
                  heap := { TestHeap.init with
                    sink := { errors := [.errorString "main failed", .custom 7 "error",
                      .errorString "Unknown panic, received: 123"] } } } := by decide
  rw [h] at ho
  injection ho with _ h2
  subst h2
  rfl

/-! ## C7 to C10: the normalizer r -/

/-- C7: for a panic payload that is an error value `e`, `r` returns `e` itself:
the result is that very value, and so differs from every other error value,
also from one with the same message, such as the error `errors.New` makes of
the message of an error of another type. -/
theorem r_error_is_identity (e : GoError) :
    r (some (.err e)) = some e
    ∧ (∀ e', e' ≠ e → r (some (.err e)) ≠ some e')
    ∧ ∀ id msg, r (some (.err (.custom id msg))) ≠ some (errors.New (GoError.custom id msg).Error)
        ∧ (errors.New (GoError.custom id msg).Error).Error = (GoError.custom id msg).Error := by
  refine ⟨rfl, ?_, ?_⟩
  · intro e' hne h
    simp only [r] at h
    injection h with h1
    exact hne h1.symm
  · intro id msg
    refine ⟨?_, rfl⟩
    intro h
    simp only [r, errors.New] at h
    injection h with h1
    exact GoError.noConfusion h1

/-- C8: for a panic payload that is a string `m`, the empty string included,
`r` returns a non-nil error whose message is exactly `m`. -/
theorem r_string_message (m : String) :
    (∃ e, r (some (.str m)) = some e ∧ e.Error = m)
    ∧ r (some (.str m)) ≠ none
    ∧ ∃ e, r (some (.str "")) = some e ∧ e.Error = "" :=
  ⟨⟨errors.New m, rfl, rfl⟩, fun h => Option.noConfusion h, ⟨errors.New "", rfl, rfl⟩⟩

/-- C9: for a present panic payload `v` that is neither a string nor an error,
`r` returns an error whose message is `Unknown panic, received: ` followed by
the default rendering of `v`; for the integer 123 the message is
`Unknown panic, received: 123`. -/
theorem r_unknown_message (v : GoValue) :
    (∃ e, r (some (.val v)) = some e ∧ e.Error = "Unknown panic, received: " ++ fmtV v)
    ∧ ∃ e, r (some (.val (.int 123))) = some e ∧ e.Error = "Unknown panic, received: 123" :=
  ⟨⟨fmt.Errorf_unknownPanic v, rfl, rfl⟩, ⟨fmt.Errorf_unknownPanic (.int 123), rfl, by decide⟩⟩

/-- C10: `r` returns no error for the absent payload and a non-nil error for
every present payload, be it a string, an error or any other value: `r(p)` is
nil if and only if `p` is absent. -/
theorem r_nil_iff_absent (p : Option Payload) :
    (r p = none ↔ p = none)
    ∧ r none = none
    ∧ (∀ x, r (some (.str x)) ≠ none)
    ∧ (∀ x, r (some (.err x)) ≠ none)
    ∧ (∀ v, r (some (.val v)) ≠ none) := by
  refine ⟨?_, rfl, fun _ h => Option.noConfusion h, fun _ h => Option.noConfusion h,
    fun _ h => Option.noConfusion h⟩
  constructor
  · intro h
    cases p with
    | none => rfl
    | some q => cases q <;> exact Option.noConfusion h
  · intro h
    subst h
    rfl

/-! ## C11 and C12: the wrapper Func -/

/-- The handler made by `Func` returns, whatever the wrapped function does. -/
theorem Func_returns {W : Type} (fn : W → Res W Unit) (w : W) :
    Func fn w = .ret (resultOfFunc (fn w).panicked) (fn w).state := by
  unfold Func
  cases h : fn w with
  | ret u w1 => rfl
  | panic p w1 => rfl

/-- C11: when the plain function `fn` completes normally, one invocation of the
handler `Func(fn)` returns nil and leaves the state that one run of `fn`
leaves: `fn` has run exactly once, so a counter that `fn` increments has gone
up by exactly one. -/
theorem Func_returns_nil_when_fn_returns {W : Type} (fn : W → Res W Unit) (w w1 : W)
    (hfn : fn w = .ret () w1) :
    Func fn w = .ret none w1
    ∧ ∀ count : W → Nat, count w1 = count w + 1 →
        ∀ a w2, Func fn w = .ret a w2 → a = none ∧ count w2 = count w + 1 := by
  have h : Func fn w = .ret none w1 := by
    simp only [Func, hfn, r]
  refine ⟨h, ?_⟩
  intro count hcount a w2 h2
  rw [h] at h2
  injection h2 with ha hw
  subst ha
  subst hw
  exact ⟨rfl, hcount⟩

/-- C11 at the test `TestFunc_CallsUnderlyingFunc`, and at a function that
appends to the log: the handler returns nil, the flag is set, and the log has
one entry more. -/
theorem Func_returns_nil_when_fn_returns_witness :
    Func TestFn.setCalled.run (newWorld [])
      = .ret none { newWorld [] with heap := { TestHeap.init with flag := true } }
    ∧ ∀ a w2, Func (TestFn.appendIndex 0).run (newWorld []) = .ret a w2 →
        a = none ∧ w2.heap.called.length = (newWorld []).heap.called.length + 1 :=
  ⟨(Func_returns_nil_when_fn_returns TestFn.setCalled.run (newWorld [])
      { newWorld [] with heap := { TestHeap.init with flag := true } } rfl).1,
   (Func_returns_nil_when_fn_returns (TestFn.appendIndex 0).run (newWorld [])
      { newWorld [] with heap := { TestHeap.init with called := [1] } } rfl).2
      (fun v => v.heap.called.length) rfl⟩

/-- C12: when the plain function `fn` panics with the payload `p`, the handler
`Func(fn)` returns normally with the result `r(p)`, and does not unwind: the
result is `p` itself when `p` is an error, an error with the message `p` when
`p` is a string, and the error `Unknown panic, received: ` followed by the
rendering of `p` when `p` is any other value.  (For the nil payload, which
`recover()` returns after `panic(nil)`, the result is `r(nil)`, the nil
error.) -/
theorem Func_returns_normalized_payload_when_fn_panics {W : Type} (fn : W → Res W Unit)
    (w w1 : W) (p : Option Payload) (hfn : fn w = .panic p w1) :
    Func fn w = .ret (r p) w1
    ∧ (∀ q w2, Func fn w ≠ .panic q w2)
    ∧ (∀ e, p = some (.err e) → Func fn w = .ret (some e) w1)
    ∧ (∀ m, p = some (.str m) → ∃ e, Func fn w = .ret (some e) w1 ∧ e.Error = m)
    ∧ (∀ v, p = some (.val v) →
        ∃ e, Func fn w = .ret (some e) w1 ∧ e.Error = "Unknown panic, received: " ++ fmtV v)
    ∧ (p = none → Func fn w = .ret none w1) := by
  have h : Func fn w = .ret (r p) w1 := by
    simp only [Func, hfn]
  refine ⟨h, ?_, ?_, ?_, ?_, ?_⟩
  · intro q w2 hq
    rw [h] at hq
    exact Res.noConfusion hq
  · intro e he
    subst he
    exact h
  · intro m hm
    subst hm
    exact ⟨errors.New m, h, rfl⟩
  · intro v hv
    subst hv
    exact ⟨fmt.Errorf_unknownPanic v, h, rfl⟩
  · intro hp
    subst hp
    exact h

/-- C12 at the tests `TestFunc_RecoversErrorPanic`, `TestFunc_RecoversStringPanic`
and `TestFunc_RecoversAnyPanic`: the handler returns the error itself, an error
with the message `internal error`, and an error with the message
`Unknown panic, received: 123`. -/
theorem Func_returns_normalized_payload_when_fn_panics_witness :
    Func (TestFn.panics (some (.err (.custom 7 "internal error")))).run (newWorld [])
      = .ret (some (.custom 7 "internal error")) (newWorld [])
    ∧ (∃ e, Func (TestFn.panics (some (.str "internal error"))).run (newWorld [])
        = .ret (some e) (newWorld []) ∧ e.Error = "internal error")
    ∧ ∃ e, Func (TestFn.panics (some (.val (.int 123)))).run (newWorld [])
        = .ret (some e) (newWorld []) ∧ e.Error = "Unknown panic, received: 123" := by
  refine ⟨?_, ?_, ?_⟩
  · exact (Func_returns_normalized_payload_when_fn_panics
      (TestFn.panics (some (.err (.custom 7 "internal error")))).run (newWorld []) (newWorld [])
      (some (.err (.custom 7 "internal error"))) rfl).2.2.1 _ rfl
  · exact (Func_returns_normalized_payload_when_fn_panics
      (TestFn.panics (some (.str "internal error"))).run (newWorld []) (newWorld [])
      (some (.str "internal error")) rfl).2.2.2.1 _ rfl
  · obtain ⟨e, h1, h2⟩ := (Func_returns_normalized_payload_when_fn_panics
      (TestFn.panics (some (.val (.int 123)))).run (newWorld []) (newWorld [])
      (some (.val (.int 123))) rfl).2.2.2.2.1 _ rfl
    refine ⟨e, h1, ?_⟩
    rw [h2]
    decide

/-! ## C13: Shutdown as a deferred call of a panicking function -/

/-- C13, as stated, fails for a Manager on which a handler is registered that
unwinds: `Shutdown` stops the panic of the body and passes its error `E` to the
recording sink, but it then calls the handlers without recovering, so the panic
of the handler `func() error { panic("boom") }` leaves `Shutdown` and the
enclosing function does not return normally.  And with a handler registered
that fails, the sink records that error after `E`, so that `Last` is not `E`. -/
theorem deferred_Shutdown_unwinds_when_handler_panics :
    deferShutdown testProgram (TestFn.panics (some (.err (.custom 7 "error")))).run
        (recordingWorld [.panics (some (.str "boom"))])
      = { trace := [.handle (some (.impl .recorder)) (.custom 7 "error"),
                    .call (.panics (some (.str "boom")))],
          out := .panic (some (.str "boom"))
            { recordingWorld [.panics (some (.str "boom"))] with
              heap := { TestHeap.init with sink := { errors := [.custom 7 "error"] } } } }
    ∧ (∀ w', (deferShutdown testProgram (TestFn.panics (some (.err (.custom 7 "error")))).run
        (recordingWorld [.panics (some (.str "boom"))])).out ≠ .ret () w')
    ∧ (deferShutdown testProgram (TestFn.panics (some (.err (.custom 7 "error")))).run
        (recordingWorld [.returns (some (.custom 8 "late"))])).out
      = .ret ()
          { recordingWorld [.returns (some (.custom 8 "late"))] with
            heap := { TestHeap.init with
              sink := { errors := [.custom 7 "error", .custom 8 "late"] } } }
    ∧ ({ errors := [.custom 7 "error", .custom 8 "late"] } : testErrorHandler).Last
        = some (.custom 8 "late") := by
  refine ⟨by decide, ?_, by decide, by decide⟩
  intro w' hw'
  have h : (deferShutdown testProgram (TestFn.panics (some (.err (.custom 7 "error")))).run
        (recordingWorld [.panics (some (.str "boom"))])).out
      = .panic (some (.str "boom"))
          { recordingWorld [.panics (some (.str "boom"))] with
            heap := { TestHeap.init with sink := { errors := [.custom 7 "error"] } } } := by
    decide
  rw [h] at hw'
  exact Res.noConfusion hw'

/-- C13 (amended): let `Shutdown` run as the deferred call of a function whose
body panics with the error value `E`, on a Manager with a recording Error Sink
(the sink `s` is installed and stays so, its `Handle` appends the error to the
record `rec` and returns) whose registered handlers all return (and leave the
sink and the record alone).  Then the enclosing function returns normally, so
the panic does not get past `Shutdown`, and the sink has recorded exactly `E`
first: `E` itself is the first error passed to `Handle`, and the non-nil
results of the handlers follow it in the record.  With no handler registered,
as in the test, that call of `Handle` is all `Shutdown` does, the record has
grown by `E` alone and `Last` is `E`. -/
theorem deferred_Shutdown_records_the_panic
    (P : Program H S σ) (s : S) (rec : World H S σ → testErrorHandler)
    (body : World H S σ → Res (World H S σ) Unit) (w0 w : World H S σ) (E : GoError)
    (hbody : body w0 = .panic (some (.err E)) w)
    (hs0 : w.m.ErrorHandler = some (.impl s))
    (hcall : ∀ h ∈ w.m.handlers, ∀ v, v.m.ErrorHandler = some (.impl s) →
      ∃ res v', P.call h v = .ret res v' ∧ v'.m.ErrorHandler = some (.impl s) ∧ rec v' = rec v)
    (hHandle : ∀ e v, ∃ v', P.Handle s e v = .ret () v' ∧ v'.m = v.m
      ∧ rec v' = (rec v).Handle e) :
    ∃ w', (deferShutdown P body w0).out = .ret () w'
      ∧ (deliveries (deferShutdown P body w0).trace).head? = some (some (.impl s), E)
      ∧ (reported (deferShutdown P body w0).trace).head? = some E
      ∧ (rec w').errors
          = (rec w).errors ++ E :: (results (deferShutdown P body w0).trace).reduceOption
      ∧ (w.m.handlers = [] →
          (deferShutdown P body w0).trace = [.handle (some (.impl s)) E]
          ∧ (rec w').errors = (rec w).errors ++ [E]
          ∧ (rec w').Last = some E) := by
  obtain ⟨w1, hh, hm1, hrec1⟩ := hHandle E w
  have hrep : report P E w = .ret () w1 := by simp only [report, hs0, hh]
  have hrun : deferShutdown P body w0
      = (rangeHandlers P w.m.handlers w1).after [.handle (some (.impl s)) E] := by
    simp only [deferShutdown, hbody, Shutdown, errors.Recover, hrep, hm1, hs0]
  have hs1 : w1.m.ErrorHandler = some (.impl s) := by rw [hm1]; exact hs0
  obtain ⟨w', ho, _, _, hg⟩ :=
    rangeHandlers_spec P (fun v => v.m.ErrorHandler = some (.impl s)) rec
      (fun _ t => t) (fun e t => testErrorHandler.Handle t e) w.m.handlers hcall
      (fun e v hv => by
        obtain ⟨v', h1, h2, h3⟩ := hHandle e v
        refine ⟨v', ?_, (congrArg Manager.ErrorHandler h2).trans hv, h3⟩
        simp only [report, hv, h1]) w1 hs1
  have hr := rangeHandlers_reported P w.m.handlers w1
  rw [observe_recorder, hr, hrec1] at hg
  have herr : (rec w').errors
      = (rec w).errors ++ E :: (results (rangeHandlers P w.m.handlers w1).trace).reduceOption := by
    rw [hg]
    simp [testErrorHandler.Handle]
  refine ⟨w', ?_, ?_, ?_, ?_, ?_⟩
  · rw [hrun, after_out]
    exact ho
  · rw [hrun]
    simp [deliveries]
  · rw [hrun]
    simp [reported]
  · rw [hrun]
    simp [results, herr]
  · intro hnil
    rw [hnil] at herr
    rw [hrun, hnil]
    have herr' : (rec w').errors = (rec w).errors ++ [E] := by
      simpa [rangeHandlers, results] using herr
    refine ⟨by simp [rangeHandlers], herr', ?_⟩
    rw [Last_eq_getLast?, herr']
    simp

/-- C13 (amended) at a Manager with a recording sink on which a handler that
fails and the handler of `CreateShutdownFunc` are registered, and at the test
`TestManager_Shutdown_RecoverFromPanic`, where none is: the enclosing function
returns, the record starts with the error of the panic, and in the test
`Last` is that error. -/
theorem deferred_Shutdown_records_the_panic_witness :
    (∃ w', (deferShutdown testProgram (TestFn.panics (some (.err (.custom 7 "error")))).run
        (recordingWorld [.returns (some (.custom 8 "late")), CreateShutdownFunc])).out
          = .ret () w'
      ∧ w'.heap.sink.errors = [.custom 7 "error", .custom 8 "late"]
      ∧ w'.heap.flag = true)
    ∧ ∃ w', (deferShutdown testProgram (TestFn.panics (some (.err (.custom 7 "error")))).run
        (recordingWorld [])).out = .ret () w'
      ∧ (deferShutdown testProgram (TestFn.panics (some (.err (.custom 7 "error")))).run
        (recordingWorld [])).trace
          = [.handle (some (.impl .recorder)) (.custom 7 "error")]
      ∧ w'.heap.sink.errors = [.custom 7 "error"]
      ∧ w'.heap.sink.Last = some (.custom 7 "error") := by
  constructor
  · obtain ⟨w', ho, _⟩ :=
      deferred_Shutdown_records_the_panic testProgram TestSink.recorder (fun v => v.heap.sink)
        (TestFn.panics (some (.err (.custom 7 "error")))).run
        (recordingWorld [.returns (some (.custom 8 "late")), CreateShutdownFunc])
        (recordingWorld [.returns (some (.custom 8 "late")), CreateShutdownFunc])
        (.custom 7 "error") rfl rfl
        (fun h hh v hv => by
          obtain ⟨res, v', hc, hmv, hsk, _⟩ := testProgram_returns h (by
            intro p hp
            subst hp
            simp [recordingWorld, CreateShutdownFunc, Manager.Register, NewManager] at hh) v
          exact ⟨res, v', hc, (congrArg Manager.ErrorHandler hmv).trans hv, hsk⟩)
        (fun e v => ⟨_, rfl, rfl, rfl⟩)
    have hc : (deferShutdown testProgram (TestFn.panics (some (.err (.custom 7 "error")))).run
          (recordingWorld [.returns (some (.custom 8 "late")), CreateShutdownFunc])).out
        = .ret ()
            { recordingWorld [.returns (some (.custom 8 "late")), CreateShutdownFunc] with
              heap := { called := [], flag := true,
                        sink := { errors := [.custom 7 "error", .custom 8 "late"] } } } := by
      decide
    have ho' := ho
    rw [hc] at ho'
    injection ho' with _ h2
    subst h2
    exact ⟨_, ho, rfl, rfl⟩
  · obtain ⟨w', ho, _, _, _, hnil⟩ :=
      deferred_Shutdown_records_the_panic testProgram TestSink.recorder (fun v => v.heap.sink)
        (TestFn.panics (some (.err (.custom 7 "error")))).run
        (recordingWorld []) (recordingWorld []) (.custom 7 "error") rfl rfl
        (fun h hh v hv => by
          simp [recordingWorld, Manager.Register, NewManager] at hh)
        (fun e v => ⟨_, rfl, rfl, rfl⟩)
    obtain ⟨htr, herr, hlast⟩ := hnil rfl
    exact ⟨w', ho, htr, by simpa [recordingWorld, TestHeap.init] using herr, hlast⟩

/-! ## C14: NewManager and the no-op sink -/

/-- C14: `NewManager` returns a Manager with an empty handler sequence and the
no-op Error Sink installed; the `Handle` of the no-op sink returns and leaves
the state as it was, for every error.  Hence, on a Manager built by
`NewManager` on which handlers are registered that return (with errors or with
nil) and leave the sink as it is, `Shutdown` returns normally, with or without
a panic in progress, and has invoked every handler, in order. -/
theorem NewManager_has_noop_sink (P : Program H S σ) :
    (NewManager : Manager H S).handlers = []
    ∧ (NewManager : Manager H S).ErrorHandler = some .noop
    ∧ (∀ (e : GoError) (w : World H S σ), noopErrorHandler.Handle e w = .ret () w)
    ∧ (∀ (e : GoError) (w : World H S σ), w.m.ErrorHandler = some .noop →
        report P e w = noopErrorHandler.Handle e w)
    ∧ ∀ (heap : σ) (hs : List H) (recovered : Option Payload),
        (∀ h ∈ hs, ∀ v, v.m.ErrorHandler = some .noop →
          ∃ res v', P.call h v = .ret res v' ∧ v'.m.ErrorHandler = some .noop) →
        ∃ w', (Shutdown P recovered ⟨(NewManager : Manager H S).Register hs, heap⟩).out
            = .ret () w'
          ∧ invoked (Shutdown P recovered ⟨(NewManager : Manager H S).Register hs, heap⟩).trace
            = hs := by
  have hnoop : ∀ (e : GoError) (w : World H S σ), w.m.ErrorHandler = some .noop →
      report P e w = noopErrorHandler.Handle e w := by
    intro e w hw
    simp only [report, hw, noopErrorHandler.Handle]
  refine ⟨rfl, rfl, fun _ _ => rfl, hnoop, ?_⟩
  intro heap hs recovered hcall
  have hloop := rangeHandlers_returns P (fun v => v.m.ErrorHandler = some .noop) hs hcall
    (fun e v hv => ⟨v, by rw [hnoop e v hv]; rfl, hv⟩)
    ⟨(NewManager : Manager H S).Register hs, heap⟩ rfl
  obtain ⟨w', ho, _, hi⟩ := hloop
  have hrun : Shutdown P recovered ⟨(NewManager : Manager H S).Register hs, heap⟩
      = (rangeHandlers P hs ⟨(NewManager : Manager H S).Register hs, heap⟩).after
          ((errors.Recover recovered).toList.map (fun e => Event.handle (some .noop) e)) := by
    unfold Shutdown
    cases hrec : errors.Recover recovered with
    | none => simp [Run.after, Manager.Register, NewManager]
    | some err =>
      have hr : report P err ⟨(NewManager : Manager H S).Register hs, heap⟩
          = .ret () ⟨(NewManager : Manager H S).Register hs, heap⟩ := by
        rw [hnoop err _ rfl]
        rfl
      simp only [hr, Run.after, Option.toList, List.map, List.singleton_append]
      simp [Manager.Register, NewManager]
  refine ⟨w', ?_, ?_⟩
  · rw [hrun, after_out]
    exact ho
  · rw [hrun, after_trace, invoked_append, hi]
    cases errors.Recover recovered <;> simp [invoked]

/-- C14 at the test `TestNewManager`: a handler that returns an error is
registered on a new Manager, `Shutdown` returns and has invoked the handler. -/
theorem NewManager_has_noop_sink_witness :
    ∃ w', (Shutdown testProgram none
        ⟨(NewManager : Manager TestHandler TestSink).Register
          [.returns (some (.errorString "error"))], TestHeap.init⟩).out = .ret () w'
      ∧ invoked (Shutdown testProgram none
        ⟨(NewManager : Manager TestHandler TestSink).Register
          [.returns (some (.errorString "error"))], TestHeap.init⟩).trace
          = [.returns (some (.errorString "error"))] :=
  (NewManager_has_noop_sink testProgram).2.2.2.2 TestHeap.init
    [.returns (some (.errorString "error"))] none
    (fun h hh v hv => by
      simp at hh
      subst hh
      exact ⟨_, v, rfl, hv⟩)

/-! ## C15: a panic in progress is reported first -/

/-- C15, as stated, fails: the error `E` of the panic in progress is passed to
`Handle` before the loop over the handlers starts, and when that call panics no
handler is invoked at all.  Here the panic in progress has the error `E` as its
payload, whose normalization is `E`, and the registered handler, that of
`CreateShutdownFunc`, returns in every state.  On a Manager whose sink panics
with `sink down`, and on the zero Manager, the call of `Handle` with `E` is all
that happens: `Shutdown` unwinds, the handler is not invoked, the flag stays
unset. -/
theorem pending_panic_report_can_stop_Shutdown :
    errors.Recover (some (.err (.custom 7 "error"))) = some (.custom 7 "error")
    ∧ (∀ v : TestWorld, ∃ res v', testProgram.call CreateShutdownFunc v = .ret res v')
    ∧ (panickingWorld (some (.str "sink down")) [CreateShutdownFunc]).m.handlers
        = [CreateShutdownFunc]
    ∧ Shutdown testProgram (some (.err (.custom 7 "error")))
        (panickingWorld (some (.str "sink down")) [CreateShutdownFunc])
      = { trace := [.handle (some (.impl (.panicking (some (.str "sink down")))))
                      (.custom 7 "error")],
          out := .panic (some (.str "sink down"))
            (panickingWorld (some (.str "sink down")) [CreateShutdownFunc]) }
    ∧ invoked (Shutdown testProgram (some (.err (.custom 7 "error")))
        (panickingWorld (some (.str "sink down")) [CreateShutdownFunc])).trace = []
    ∧ Shutdown testProgram (some (.err (.custom 7 "error"))) (zeroWorld [CreateShutdownFunc])
      = { trace := [.handle none (.custom 7 "error")],
          out := .panic (some nilDereference) (zeroWorld [CreateShutdownFunc]) }
    ∧ (zeroWorld [CreateShutdownFunc]).heap.flag = false :=
  ⟨rfl, fun v => ⟨_, _, rfl⟩, by decide, by decide, by decide, by decide, by decide⟩

/-- C15 (amended): let `Shutdown` start with a panic in progress whose
normalization is the error `E`.  Then the call of `Handle` with `E` is the
first thing `Shutdown` does, before any handler is invoked.  When the Error
Sink returns from every `Handle` that `Shutdown` calls (and leaves the handler
sequence alone) and the handlers all return, `Shutdown` returns and has then
invoked every registered handler, in order: the sink has received `E` first,
followed by the non-nil results of the handlers in the order of registration.
`Inv` is any property of the state that the calls keep and under which they
return. -/
theorem Shutdown_reports_pending_panic_first
    (P : Program H S σ) (Inv : World H S σ → Prop) (w : World H S σ)
    (recovered : Option Payload) (E : GoError)
    (hE : errors.Recover recovered = some E)
    (h0 : Inv w)
    (hcall : ∀ h ∈ w.m.handlers, ∀ v, Inv v → ∃ res v', P.call h v = .ret res v' ∧ Inv v')
    (hsink : ∀ e v, Inv v →
      ∃ v', report P e v = .ret () v' ∧ Inv v' ∧ v'.m.handlers = v.m.handlers) :
    ∃ w' t, (Shutdown P recovered w).out = .ret () w'
      ∧ (Shutdown P recovered w).trace = .handle w.m.ErrorHandler E :: t
      ∧ invoked t = w.m.handlers
      ∧ reported (Shutdown P recovered w).trace = E :: (results t).reduceOption
      ∧ ∀ resOf : H → Option GoError,
          (∀ h ∈ w.m.handlers, ∀ v res v', P.call h v = .ret res v' → res = resOf h) →
          reported (Shutdown P recovered w).trace = E :: w.m.handlers.filterMap resOf := by
  obtain ⟨w1, hr, hw1, hh1⟩ := hsink E w h0
  have hrun : Shutdown P recovered w
      = (rangeHandlers P w.m.handlers w1).after [.handle w.m.ErrorHandler E] := by
    simp only [Shutdown, hE, hr, hh1]
  obtain ⟨w', ho, _, hi⟩ :=
    rangeHandlers_returns P Inv w.m.handlers hcall
      (fun e v hv => by
        obtain ⟨v', h1, h2, _⟩ := hsink e v hv
        exact ⟨v', h1, h2⟩) w1 hw1
  have hrep := rangeHandlers_reported P w.m.handlers w1
  obtain ⟨_, hmap⟩ := rangeHandlers_results P w.m.handlers w1 w' ho
  refine ⟨w', (rangeHandlers P w.m.handlers w1).trace, ?_, ?_, hi, ?_, ?_⟩
  · rw [hrun, after_out]
    exact ho
  · rw [hrun]
    rfl
  · rw [hrun]
    simp [reported, hrep]
  · intro resOf hres
    have hfm : (results (rangeHandlers P w.m.handlers w1).trace).reduceOption
        = w.m.handlers.filterMap resOf := by
      rw [hmap resOf hres, List.reduceOption, List.filterMap_map]
      rfl
    rw [hrun]
    simp [reported, hrep, hfm]

/-- C15 (amended) at a Manager with a recording sink and the handlers
`func() error { return error }` and that of `CreateShutdownFunc`, with a panic
in progress whose payload is the string `main failed`: the sink has received
the error of the panic first and the error of the first handler after it, and
the flag is set. -/
theorem Shutdown_reports_pending_panic_first_witness :
    ∃ w' t, (Shutdown testProgram (some (.str "main failed"))
        (recordingWorld [.returns (some (.custom 7 "error")), CreateShutdownFunc])).out
          = .ret () w'
      ∧ (Shutdown testProgram (some (.str "main failed"))
        (recordingWorld [.returns (some (.custom 7 "error")), CreateShutdownFunc])).trace
          = .handle (some (.impl .recorder)) (.errorString "main failed") :: t
      ∧ invoked t = [.returns (some (.custom 7 "error")), CreateShutdownFunc]
      ∧ reported (Shutdown testProgram (some (.str "main failed"))
        (recordingWorld [.returns (some (.custom 7 "error")), CreateShutdownFunc])).trace
          = [.errorString "main failed", .custom 7 "error"] := by
  obtain ⟨w', t, ho, ht, hi, _, _⟩ :=
    Shutdown_reports_pending_panic_first testProgram
      (fun v => v.m = (recordingWorld
        [.returns (some (.custom 7 "error")), CreateShutdownFunc]).m)
      (recordingWorld [.returns (some (.custom 7 "error")), CreateShutdownFunc])
      (some (.str "main failed")) (.errorString "main failed") rfl rfl
      (fun h hh v hv => by
        obtain ⟨res, v', hc, hmv, _⟩ := testProgram_returns h (by
          intro p hp
          subst hp
          simp [recordingWorld, CreateShutdownFunc, Manager.Register, NewManager] at hh) v
        exact ⟨res, v', hc, hmv.trans hv⟩)
      (fun e v hv => by
        refine ⟨{ v with heap := { v.heap with sink := v.heap.sink.Handle e } }, ?_, hv, rfl⟩
        simp only [report, hv, testProgram, recordingWorld, Manager.Register, NewManager])
  exact ⟨w', t, ho, ht, hi, by decide⟩

/-! ## C16: Shutdown called twice -/

/-- Calls that leave an observed part of the state alone leave it alone over a
whole trace. -/
theorem observe_id (tr : List (Event H S)) (x : γ) :
    observe (fun _ y => y) (fun _ y => y) tr x = x := by
  induction tr with
  | nil => rfl
  | cons ev t ih => cases ev <;> simpa [observe] using ih

/-- C16, as stated, fails.  First, with handlers that all return but a sink whose
`Handle` panics (or the nil `ErrorHandler` of the zero Manager), the first call
of `Shutdown` unwinds after the first failing handler: the two handlers
`func() error { return error }` and the first of `CreateOrderedShutdownFuncs`
are not invoked `h1, h2, h1, h2`, only `h1` is invoked.  Second, `Shutdown` leaves
the handler sequence as its callees leave it, and the sink is a callee too: with
a sink whose `Handle` registers a handler, and a failing handler that registers
nothing, the sequence has one handler more after `Shutdown`. -/
theorem Shutdown_twice_can_stop_or_grow :
    (∀ h ∈ [TestHandler.returns (some (.custom 7 "error")), .func (.appendIndex 0)],
        ∀ v : TestWorld, ∃ res v', testProgram.call h v = .ret res v')
    ∧ (panickingWorld (some (.str "sink down"))
        [.returns (some (.custom 7 "error")), .func (.appendIndex 0)]).m.handlers
        = [.returns (some (.custom 7 "error")), .func (.appendIndex 0)]
    ∧ invoked (ShutdownTwice testProgram (panickingWorld (some (.str "sink down"))
        [.returns (some (.custom 7 "error")), .func (.appendIndex 0)])).trace
        = [.returns (some (.custom 7 "error"))]
    ∧ (ShutdownTwice testProgram (panickingWorld (some (.str "sink down"))
        [.returns (some (.custom 7 "error")), .func (.appendIndex 0)])).out
        = .panic (some (.str "sink down")) (panickingWorld (some (.str "sink down"))
            [.returns (some (.custom 7 "error")), .func (.appendIndex 0)])
    ∧ invoked (ShutdownTwice testProgram
        (zeroWorld [.returns (some (.custom 7 "error")), .func (.appendIndex 0)])).trace
        = [.returns (some (.custom 7 "error"))]
    ∧ (∀ v : LiveWorld, ∃ v', liveProgram.call (.log 1 (some (.custom 7 "error"))) v
          = .ret (some (.custom 7 "error")) v' ∧ v'.m = v.m)
    ∧ (liveWorld (.registering 9) [.log 1 (some (.custom 7 "error"))]).m.handlers
        = [.log 1 (some (.custom 7 "error"))]
    ∧ (∃ w', (Shutdown liveProgram none
          (liveWorld (.registering 9) [.log 1 (some (.custom 7 "error"))])).out = .ret () w'
        ∧ w'.m.handlers = [.log 1 (some (.custom 7 "error")), .log 9 none])
    ∧ invoked (ShutdownTwice liveProgram
        (liveWorld (.registering 9) [.log 1 (some (.custom 7 "error"))])).trace
        = [.log 1 (some (.custom 7 "error")), .log 1 (some (.custom 7 "error")), .log 9 none] := by
  refine ⟨?_, by decide, by decide, by decide, by decide, fun v => ⟨_, rfl, rfl⟩, by decide,
    ⟨{ m := { handlers := [.log 1 (some (.custom 7 "error")), .log 9 none],
              ErrorHandler := some (.impl (.registering 9)) },
       heap := { called := [1], first := { errors := [] }, second := { errors := [] } } },
     by decide, by decide⟩, by decide⟩
  intro h hh v
  obtain ⟨res, v', hc, _⟩ := testProgram_returns h (by
    intro p hp
    subst hp
    simp at hh) v
  exact ⟨res, v', hc⟩

/-- C16 (amended): when the handlers all return, the Error Sink returns from
every `Handle` that `Shutdown` calls, and no callee, handler or sink, registers
handlers, `Shutdown` leaves the handler sequence of the Manager unchanged, so
calling `Shutdown` again executes all handlers again: two consecutive calls
return and invoke `h1, ..., hn, h1, ..., hn` in that order, and each call
passes the non-nil results of the handlers to the sink, once per call.
`Inv` is any property of the state that the calls keep and under which they
return. -/
theorem Shutdown_twice_runs_handlers_twice
    (P : Program H S σ) (Inv : World H S σ → Prop) (w : World H S σ)
    (h0 : Inv w)
    (hcall : ∀ h ∈ w.m.handlers, ∀ v, Inv v →
      ∃ res v', P.call h v = .ret res v' ∧ Inv v' ∧ v'.m.handlers = v.m.handlers)
    (hsink : ∀ e v, Inv v →
      ∃ v', report P e v = .ret () v' ∧ Inv v' ∧ v'.m.handlers = v.m.handlers) :
    ∃ w1 w2, (Shutdown P none w).out = .ret () w1
      ∧ w1.m.handlers = w.m.handlers
      ∧ (Shutdown P none w1).out = .ret () w2
      ∧ w2.m.handlers = w.m.handlers
      ∧ invoked (Shutdown P none w).trace = w.m.handlers
      ∧ invoked (Shutdown P none w1).trace = w.m.handlers
      ∧ (ShutdownTwice P w).out = .ret () w2
      ∧ invoked (ShutdownTwice P w).trace = w.m.handlers ++ w.m.handlers
      ∧ reported (ShutdownTwice P w).trace
          = (results (Shutdown P none w).trace).reduceOption
            ++ (results (Shutdown P none w1).trace).reduceOption
      ∧ ∀ resOf : H → Option GoError,
          (∀ h ∈ w.m.handlers, ∀ v res v', P.call h v = .ret res v' → res = resOf h) →
          reported (ShutdownTwice P w).trace
            = w.m.handlers.filterMap resOf ++ w.m.handlers.filterMap resOf := by
  have hloop := rangeHandlers_spec P Inv (fun v => v.m.handlers) (fun _ l => l) (fun _ l => l)
    w.m.handlers hcall hsink
  obtain ⟨w1, ho1, hw1, hi1, hg1⟩ := hloop w h0
  rw [observe_id] at hg1
  obtain ⟨w2, ho2, _, hi2, hg2⟩ := hloop w1 hw1
  rw [observe_id] at hg2
  replace hg1 : w1.m.handlers = w.m.handlers := hg1
  replace hg2 : w2.m.handlers = w1.m.handlers := hg2
  have hrun1 : Shutdown P none w = rangeHandlers P w.m.handlers w := rfl
  have hrun2 : Shutdown P none w1 = rangeHandlers P w.m.handlers w1 := by
    rw [Shutdown_none, hg1]
  have htwice : ShutdownTwice P w
      = (rangeHandlers P w.m.handlers w1).after (rangeHandlers P w.m.handlers w).trace := by
    simp only [ShutdownTwice, hrun1, ho1, hrun2]
  have hrep1 := rangeHandlers_reported P w.m.handlers w
  have hrep2 := rangeHandlers_reported P w.m.handlers w1
  obtain ⟨_, hmap1⟩ := rangeHandlers_results P w.m.handlers w w1 ho1
  obtain ⟨_, hmap2⟩ := rangeHandlers_results P w.m.handlers w1 w2 ho2
  refine ⟨w1, w2, ho1, hg1, by rw [hrun2]; exact ho2, hg2.trans hg1, hi1,
    by rw [hrun2]; exact hi2, ?_, ?_, ?_, ?_⟩
  · rw [htwice, after_out]
    exact ho2
  · rw [htwice, after_trace, invoked_append, hi1, hi2]
  · rw [htwice, after_trace, reported_append, hrep1, hrep2, hrun1, hrun2]
  · intro resOf hres
    have hfm : ∀ v, results (rangeHandlers P w.m.handlers v).trace = w.m.handlers.map resOf →
        (results (rangeHandlers P w.m.handlers v).trace).reduceOption
          = w.m.handlers.filterMap resOf := by
      intro v hv
      rw [hv, List.reduceOption, List.filterMap_map]
      rfl
    rw [htwice, after_trace, reported_append, hrep1, hrep2, hfm w (hmap1 resOf hres),
      hfm w1 (hmap2 resOf hres)]

/-- C16 (amended) at a Manager with a recording sink and the handlers
`func() error { return error }` and the first of `CreateOrderedShutdownFuncs`:
two calls invoke the two handlers twice in order, the error is reported twice,
and the log has two entries. -/
theorem Shutdown_twice_runs_handlers_twice_witness :
    ∃ w2, (ShutdownTwice testProgram
        (recordingWorld [.returns (some (.custom 7 "error")), .func (.appendIndex 0)])).out
          = .ret () w2
      ∧ invoked (ShutdownTwice testProgram
        (recordingWorld [.returns (some (.custom 7 "error")), .func (.appendIndex 0)])).trace
          = [.returns (some (.custom 7 "error")), .func (.appendIndex 0),
             .returns (some (.custom 7 "error")), .func (.appendIndex 0)]
      ∧ reported (ShutdownTwice testProgram
        (recordingWorld [.returns (some (.custom 7 "error")), .func (.appendIndex 0)])).trace
          = [.custom 7 "error", .custom 7 "error"]
      ∧ w2.heap.called = [1, 1]
      ∧ w2.heap.sink.errors = [.custom 7 "error", .custom 7 "error"] := by
  obtain ⟨w1, w2, _, _, _, _, _, _, ho, hi, _⟩ :=
    Shutdown_twice_runs_handlers_twice testProgram
      (fun v => v.m = (recordingWorld
        [.returns (some (.custom 7 "error")), .func (.appendIndex 0)]).m)
      (recordingWorld [.returns (some (.custom 7 "error")), .func (.appendIndex 0)]) rfl
      (fun h hh v hv => by
        obtain ⟨res, v', hc, hmv, _⟩ := testProgram_returns h (by
          intro p hp
          subst hp
          simp [recordingWorld, Manager.Register, NewManager] at hh) v
        exact ⟨res, v', hc, hmv.trans hv, congrArg Manager.handlers hmv⟩)
      (fun e v hv => by
        refine ⟨{ v with heap := { v.heap with sink := v.heap.sink.Handle e } }, ?_, hv, rfl⟩
        simp only [report, hv, testProgram, recordingWorld, Manager.Register, NewManager])
  have hout : (ShutdownTwice testProgram
        (recordingWorld [.returns (some (.custom 7 "error")), .func (.appendIndex 0)])).out
      = .ret () { recordingWorld [.returns (some (.custom 7 "error")), .func (.appendIndex 0)]
                  with heap := { TestHeap.init with
                    called := [1, 1],
                    sink := { errors := [.custom 7 "error", .custom 7 "error"] } } } := by
    decide
  refine ⟨w2, ho, hi, by decide, ?_, ?_⟩ <;>
  · rw [hout] at ho
    injection ho with _ h2
    subst h2
    rfl

/-! ## The loop around one of its handlers -/

/-- The loop over a list around one of its handlers, when every callee returns:
the states between the parts, and the trace in its parts. -/
theorem rangeHandlers_around (P : Program H S σ) (Inv : World H S σ → Prop)
    (before behind : List H) (hk : H)
    (hcall : ∀ h ∈ before ++ hk :: behind, ∀ v, Inv v →
      ∃ res v', P.call h v = .ret res v' ∧ Inv v')
    (hsink : ∀ e v, Inv v → ∃ v', report P e v = .ret () v' ∧ Inv v')
    (w : World H S σ) (h0 : Inv w) :
    ∃ wA res wB wC wD,
      (rangeHandlers P before w).out = .ret () wA ∧ Inv wA
      ∧ P.call hk wA = .ret res wB ∧ Inv wB
      ∧ ((res = none ∧ wC = wB) ∨ ∃ e, res = some e ∧ report P e wB = .ret () wC) ∧ Inv wC
      ∧ (rangeHandlers P behind wC).out = .ret () wD ∧ Inv wD
      ∧ (rangeHandlers P (before ++ hk :: behind) w).out = .ret () wD
      ∧ (rangeHandlers P (before ++ hk :: behind) w).trace
          = (rangeHandlers P before w).trace ++ (rangeHandlers P (hk :: behind) wA).trace
      ∧ (rangeHandlers P (hk :: behind) wA).trace
          = .call hk :: .result res
              :: ((match res with
                    | none => []
                    | some e => [.handle wB.m.ErrorHandler e])
                  ++ (rangeHandlers P behind wC).trace) := by
  have hcallB : ∀ h ∈ before, ∀ v, Inv v → ∃ res v', P.call h v = .ret res v' ∧ Inv v' :=
    fun h hh => hcall h (List.mem_append_left _ hh)
  have hcallR : ∀ h ∈ behind, ∀ v, Inv v → ∃ res v', P.call h v = .ret res v' ∧ Inv v' :=
    fun h hh => hcall h (List.mem_append_right _ (List.mem_cons_of_mem _ hh))
  obtain ⟨wA, hoA, hwA, _⟩ := rangeHandlers_returns P Inv before hcallB hsink w h0
  obtain ⟨res, wB, hc, hwB⟩ :=
    hcall hk (List.mem_append_right _ (List.mem_cons_self _ _)) wA hwA
  have happ := rangeHandlers_append P before (hk :: behind) w wA hoA
  cases res with
  | none =>
    obtain ⟨wD, hoD, hwD, _⟩ := rangeHandlers_returns P Inv behind hcallR hsink wB hwB
    refine ⟨wA, none, wB, wB, wD, hoA, hwA, hc, hwB, Or.inl ⟨rfl, rfl⟩, hwB, hoD, hwD, ?_, ?_, ?_⟩
    · rw [happ, after_out]
      simp [rangeHandlers, hc, hoD]
    · rw [happ, after_trace]
    · simp [rangeHandlers, hc]
  | some e =>
    obtain ⟨wC, hr, hwC⟩ := hsink e wB hwB
    obtain ⟨wD, hoD, hwD, _⟩ := rangeHandlers_returns P Inv behind hcallR hsink wC hwC
    refine ⟨wA, some e, wB, wC, wD, hoA, hwA, hc, hwB, Or.inr ⟨e, rfl, hr⟩, hwC, hoD, hwD,
      ?_, ?_, ?_⟩
    · rw [happ, after_out]
      simp [rangeHandlers, hc, hr, hoD]
    · rw [happ, after_trace]
    · simp [rangeHandlers, hc, hr]

/-- When every callee returns and leaves the handler sequence of the Manager
alone, the sequence is the same after the loop. -/
theorem rangeHandlers_keeps_handlers (P : Program H S σ) (Inv : World H S σ → Prop)
    (hs : List H)
    (hcall : ∀ h ∈ hs, ∀ v, Inv v →
      ∃ res v', P.call h v = .ret res v' ∧ Inv v' ∧ v'.m.handlers = v.m.handlers)
    (hsink : ∀ e v, Inv v →
      ∃ v', report P e v = .ret () v' ∧ Inv v' ∧ v'.m.handlers = v.m.handlers)
    (w w' : World H S σ) (h0 : Inv w) (ho : (rangeHandlers P hs w).out = .ret () w') :
    w'.m.handlers = w.m.handlers := by
  obtain ⟨w'', ho', _, _, hg⟩ :=
    rangeHandlers_spec P Inv (fun v => v.m.handlers) (fun _ l => l) (fun _ l => l) hs
      hcall hsink w h0
  rw [observe_id] at hg
  rw [ho] at ho'
  injection ho' with _ h2
  subst h2
  exact hg

/-! ## C18: replacing the sink while Shutdown runs -/

/-- The loop over a list in two parts, when the first part unwinds: the second
part does not run. -/
theorem rangeHandlers_append_panic (P : Program H S σ) (xs ys : List H)
    (w w1 : World H S σ) (p : Option Payload)
    (hx : (rangeHandlers P xs w).out = .panic p w1) :
    rangeHandlers P (xs ++ ys) w = rangeHandlers P xs w := by
  induction xs generalizing w with
  | nil => simp [rangeHandlers] at hx
  | cons h rest ih =>
    rw [List.cons_append, rangeHandlers, rangeHandlers]
    rw [rangeHandlers] at hx
    cases hc : P.call h w with
    | panic q w2 => rfl
    | ret res w2 =>
      cases res with
      | none =>
        simp only [hc, after_out] at hx ⊢
        rw [ih w2 hx]
      | some e =>
        simp only [hc] at hx ⊢
        cases hr : report P e w2 with
        | panic q w3 => rfl
        | ret u w3 =>
          simp only [hr, after_out] at hx ⊢
          rw [ih w3 hx]

/-- When the loop returns it has invoked every handler of the list. -/
theorem rangeHandlers_invoked_of_ret (P : Program H S σ) (hs : List H) (w w' : World H S σ)
    (hret : (rangeHandlers P hs w).out = .ret () w') :
    invoked (rangeHandlers P hs w).trace = hs := by
  induction hs generalizing w with
  | nil => rfl
  | cons h rest ih =>
    rw [rangeHandlers] at hret ⊢
    cases hc : P.call h w with
    | panic p w1 => simp [hc] at hret
    | ret res w1 =>
      cases res with
      | none =>
        simp only [hc, after_out] at hret ⊢
        simp [invoked, ih w1 hret]
      | some e =>
        simp only [hc] at hret ⊢
        cases hr : report P e w1 with
        | panic p w2 => simp [hr] at hret
        | ret u w2 =>
          simp only [hr, after_out] at hret ⊢
          simp [invoked, ih w2 hret]

/-- While no callee replaces the sink, every error the loop reports goes to the
sink that was installed when the loop started, which is still installed when
the loop returns.  This holds however the loop ends. -/
theorem rangeHandlers_sink_kept (P : Program H S σ) (hs : List H)
    (hkeep : ∀ h ∈ hs, ∀ v res v', P.call h v = .ret res v' →
      v'.m.ErrorHandler = v.m.ErrorHandler)
    (hkeepS : ∀ e v v', report P e v = .ret () v' → v'.m.ErrorHandler = v.m.ErrorHandler)
    (w : World H S σ) :
    (∀ d ∈ deliveries (rangeHandlers P hs w).trace, d.1 = w.m.ErrorHandler)
    ∧ ∀ w', (rangeHandlers P hs w).out = .ret () w' → w'.m.ErrorHandler = w.m.ErrorHandler := by
  induction hs generalizing w with
  | nil =>
    refine ⟨by simp [rangeHandlers, deliveries], ?_⟩
    intro w' hw'
    simp only [rangeHandlers] at hw'
    injection hw' with _ h2
    rw [h2]
  | cons h rest ih =>
    have ih1 := ih (fun k hk => hkeep k (List.mem_cons_of_mem _ hk))
    rw [rangeHandlers]
    cases hc : P.call h w with
    | panic p w1 =>
      refine ⟨by simp [deliveries], ?_⟩
      intro w' hw'
      exact Res.noConfusion hw'
    | ret res w1 =>
      have h1 := hkeep h (List.mem_cons_self _ _) w res w1 hc
      cases res with
      | none =>
        obtain ⟨hd, ho⟩ := ih1 w1
        refine ⟨?_, ?_⟩
        · intro d hd'
          simp only [after_trace, deliveries_append, deliveries, List.nil_append] at hd'
          rw [hd d hd', h1]
        · intro w' hw'
          rw [ho w' hw', h1]
      | some e =>
        simp only []
        cases hr : report P e w1 with
        | panic p w2 =>
          refine ⟨?_, ?_⟩
          · intro d hd'
            simp only [deliveries, List.mem_singleton] at hd'
            rw [hd']
            exact h1
          · intro w' hw'
            exact Res.noConfusion hw'
        | ret u w2 =>
          have h2 := hkeepS e w1 w2 hr
          obtain ⟨hd, ho⟩ := ih1 w2
          refine ⟨?_, ?_⟩
          · intro d hd'
            simp only [after_trace, deliveries_append, deliveries, List.singleton_append,
              List.mem_cons] at hd'
            rcases hd' with hd' | hd'
            · rw [hd']
              exact h1
            · rw [hd d hd', h2, h1]
          · intro w' hw'
            rw [ho w' hw', h2, h1]

/-- C18: let the sink `S1` be installed when `Shutdown` starts, let the k-th
handler `hk` assign the sink `S2` to `ErrorHandler` during its invocation, and let
no other handler and no `Handle` replace the sink.  Then the trace of `Shutdown`
falls into what happened before `hk` was invoked and what happened from then
on: every error reported before has gone to `S1`, and every error reported from
then on, the error `hk` itself returned and those of all later handlers, has
gone to `S2`, and so not to `S1` when the two differ.  This holds however
`Shutdown` ends.  In both parts the errors reported are the non-nil results of
the handlers invoked, so nothing already given to `S1` is given again. -/
theorem replaced_sink_receives_later_errors
    (P : Program H S σ) (w : World H S σ) (before behind : List H) (hk : H)
    (S1 S2 : Option (errorHandler S))
    (hseq : w.m.handlers = before ++ hk :: behind)
    (hS1 : w.m.ErrorHandler = S1)
    (hkeepB : ∀ h ∈ before, ∀ v res v', P.call h v = .ret res v' →
      v'.m.ErrorHandler = v.m.ErrorHandler)
    (hkeepR : ∀ h ∈ behind, ∀ v res v', P.call h v = .ret res v' →
      v'.m.ErrorHandler = v.m.ErrorHandler)
    (hkeepS : ∀ e v v', report P e v = .ret () v' → v'.m.ErrorHandler = v.m.ErrorHandler)
    (hk2 : ∀ v res v', P.call hk v = .ret res v' → v'.m.ErrorHandler = S2) :
    ∃ t1 t2, (Shutdown P none w).trace = t1 ++ t2
      ∧ t1 = (rangeHandlers P before w).trace
      ∧ (t2 = [] ∨ (invoked t1 = before ∧ t2.head? = some (.call hk)))
      ∧ (∀ d ∈ deliveries t1, d.1 = S1)
      ∧ (∀ d ∈ deliveries t2, d.1 = S2)
      ∧ (S1 ≠ S2 → ∀ d ∈ deliveries t2, d.1 ≠ S1)
      ∧ reported t1 = (results t1).reduceOption
      ∧ reported t2 = (results t2).reduceOption := by
  have hB := rangeHandlers_sink_kept P before hkeepB hkeepS w
  rw [hS1] at hB
  have hne : ∀ t2 : List (Event H S), (∀ d ∈ deliveries t2, d.1 = S2) →
      S1 ≠ S2 → ∀ d ∈ deliveries t2, d.1 ≠ S1 := by
    intro t2 h2 hne d hd hd1
    exact hne ((hd1.symm).trans (h2 d hd))
  rw [Shutdown_none, hseq]
  cases hb : (rangeHandlers P before w).out with
  | panic p wA =>
    refine ⟨(rangeHandlers P before w).trace, [], ?_, rfl, Or.inl rfl, hB.1, ?_, ?_,
      rangeHandlers_reported P before w, rfl⟩
    · rw [rangeHandlers_append_panic P before _ w wA p hb, List.append_nil]
    · intro d hd
      simp [deliveries] at hd
    · intro _ d hd
      simp [deliveries] at hd
  | ret u wA =>
    have hA : wA.m.ErrorHandler = S1 := hB.2 wA hb
    have hdel : ∀ d ∈ deliveries (rangeHandlers P (hk :: behind) wA).trace, d.1 = S2 := by
      rw [rangeHandlers]
      cases hc : P.call hk wA with
      | panic q wB =>
        intro d hd
        simp [deliveries] at hd
      | ret res wB =>
        have hwB := hk2 wA res wB hc
        cases res with
        | none =>
          intro d hd
          simp only [after_trace, deliveries_append, deliveries, List.nil_append] at hd
          rw [(rangeHandlers_sink_kept P behind hkeepR hkeepS wB).1 d hd, hwB]
        | some e =>
          simp only []
          cases hr : report P e wB with
          | panic q wC =>
            intro d hd
            simp only [deliveries, List.mem_singleton] at hd
            rw [hd]
            exact hwB
          | ret u2 wC =>
            have hwC := hkeepS e wB wC hr
            intro d hd
            simp only [after_trace, deliveries_append, deliveries, List.singleton_append,
              List.mem_cons] at hd
            rcases hd with hd | hd
            · rw [hd]
              exact hwB
            · rw [(rangeHandlers_sink_kept P behind hkeepR hkeepS wC).1 d hd, hwC, hwB]
    have hhead : (rangeHandlers P (hk :: behind) wA).trace.head? = some (.call hk) := by
      rw [rangeHandlers]
      cases hc : P.call hk wA with
      | panic q wB => rfl
      | ret res wB =>
        cases res with
        | none => rfl
        | some e =>
          simp only []
          cases hr : report P e wB <;> rfl
    refine ⟨(rangeHandlers P before w).trace, (rangeHandlers P (hk :: behind) wA).trace, ?_,
      rfl, Or.inr ⟨rangeHandlers_invoked_of_ret P before w wA hb, hhead⟩, hB.1, hdel,
      hne _ hdel, rangeHandlers_reported P before w, rangeHandlers_reported P _ wA⟩
    rw [rangeHandlers_append P before _ w wA hb, after_trace]

/-- C18 at a Manager with two recording sinks and three failing handlers, of
which the second assigns the second sink: the first sink has received the error
of the first handler only, and the second sink those of the second and third
handler, in order. -/
theorem replaced_sink_receives_later_errors_witness :
    (∃ t1 t2, (Shutdown liveProgram none
        (liveWorld .first [.log 1 (some (.custom 1 "one")),
          .setSink (some (.impl .second)) (some (.custom 2 "two")),
          .log 3 (some (.custom 3 "three"))])).trace = t1 ++ t2
      ∧ (∀ d ∈ deliveries t1, d.1 = some (.impl .first))
      ∧ (∀ d ∈ deliveries t2, d.1 = some (.impl .second)))
    ∧ deliveries (Shutdown liveProgram none
        (liveWorld .first [.log 1 (some (.custom 1 "one")),
          .setSink (some (.impl .second)) (some (.custom 2 "two")),
          .log 3 (some (.custom 3 "three"))])).trace
        = [(some (.impl .first), .custom 1 "one"), (some (.impl .second), .custom 2 "two"),
           (some (.impl .second), .custom 3 "three")]
    ∧ (Shutdown liveProgram none
        (liveWorld .first [.log 1 (some (.custom 1 "one")),
          .setSink (some (.impl .second)) (some (.custom 2 "two")),
          .log 3 (some (.custom 3 "three"))])).out
        = .ret ()
            { m := { handlers := [.log 1 (some (.custom 1 "one")),
                       .setSink (some (.impl .second)) (some (.custom 2 "two")),
                       .log 3 (some (.custom 3 "three"))],
                     ErrorHandler := some (.impl .second) },
              heap := { called := [1, 3],
                        first := { errors := [.custom 1 "one"] },
                        second := { errors := [.custom 2 "two", .custom 3 "three"] } } } := by
  refine ⟨?_, by decide, by decide⟩
  obtain ⟨t1, t2, ht, _, _, h1, h2, _⟩ :=
    replaced_sink_receives_later_errors liveProgram
      (liveWorld .first [.log 1 (some (.custom 1 "one")),
          .setSink (some (.impl .second)) (some (.custom 2 "two")),
          .log 3 (some (.custom 3 "three"))])
      [.log 1 (some (.custom 1 "one"))] [.log 3 (some (.custom 3 "three"))]
      (.setSink (some (.impl .second)) (some (.custom 2 "two")))
      (some (.impl .first)) (some (.impl .second)) rfl rfl
      (fun h hh v res v' hc => by
        simp only [List.mem_singleton] at hh
        subst hh
        simp only [liveProgram] at hc
        injection hc with _ h2
        subst h2
        rfl)
      (fun h hh v res v' hc => by
        simp only [List.mem_singleton] at hh
        subst hh
        simp only [liveProgram] at hc
        injection hc with _ h2
        subst h2
        rfl)
      (fun e v v' hr => by
        unfold report at hr
        cases hs : v.m.ErrorHandler with
        | none => simp [hs] at hr
        | some s =>
          cases s with
          | noop =>
            simp only [hs] at hr
            injection hr with _ h2
            subst h2
            exact hs
          | impl k =>
            cases k <;>
            · simp only [hs, liveProgram] at hr
              injection hr with _ h2
              subst h2
              exact hs)
      (fun v res v' hc => by
        simp only [liveProgram] at hc
        injection hc with _ h2
        subst h2
        rfl)
  exact ⟨t1, t2, ht, h1, h2⟩

/-! ## C19: registration is concatenation -/

/-- C19: `RegisterAsFirst(xs...)` followed by `RegisterAsFirst(ys...)` leaves
the Manager that the one call `RegisterAsFirst((ys ++ xs)...)` leaves; so
`RegisterAsFirst(a, b)` gives `[a, b] ++ old`, whereas `RegisterAsFirst(a)` and
then `RegisterAsFirst(b)` gives `[b, a] ++ old`, the two in the reverse order.
Dually `Register(xs...)` followed by `Register(ys...)` leaves the Manager that
`Register((xs ++ ys)...)` leaves. -/
theorem RegisterAsFirst_is_concatenation (m : Manager H S) (xs ys : List H) :
    (m.RegisterAsFirst xs).RegisterAsFirst ys = m.RegisterAsFirst (ys ++ xs)
    ∧ ((m.RegisterAsFirst xs).RegisterAsFirst ys).handlers = ys ++ xs ++ m.handlers
    ∧ (∀ a b, (m.RegisterAsFirst [a, b]).handlers = [a, b] ++ m.handlers)
    ∧ (∀ a b, ((m.RegisterAsFirst [a]).RegisterAsFirst [b]).handlers = [b, a] ++ m.handlers)
    ∧ (m.Register xs).Register ys = m.Register (xs ++ ys)
    ∧ ((m.Register xs).Register ys).handlers = m.handlers ++ xs ++ ys := by
  refine ⟨?_, ?_, fun _ _ => rfl, fun _ _ => rfl, ?_, ?_⟩
  · simp [Manager.RegisterAsFirst]
  · simp [Manager.RegisterAsFirst]
  · simp [Manager.Register]
  · simp [Manager.Register]

/-! ## C20: a Manager whose handlers are all made by Func -/

/-- C20: when every registered handler was made by `Func` (of the function
`fnOf h`) and the installed Error Sink returns from every `Handle` that
`Shutdown` calls, `Shutdown` returns normally whatever the wrapped functions do,
be it return or panic.  Every handler is invoked, in the order of registration,
so every wrapped function is run exactly once in that order also when earlier
ones panicked: a log to which each function appends before it returns or
panics holds one entry for each, in order.  The sink receives the non-nil
results of the handlers: when the function of `h` ends as `outcome h` says,
that is `r(p)` for each function that panicked with a payload `p`, in the order
of registration, and nothing for a function that returned.
`Inv` is any property of the state that the calls keep, whichever way they
end, and under which the sink returns. -/
theorem Shutdown_of_Func_handlers
    (P : Program H S σ) (Inv : World H S σ → Prop) (w : World H S σ)
    (fnOf : H → World H S σ → Res (World H S σ) Unit)
    (h0 : Inv w)
    (hFunc : ∀ h ∈ w.m.handlers, P.call h = Func (fnOf h))
    (hfn : ∀ h ∈ w.m.handlers, ∀ u, Inv u → Inv (fnOf h u).state)
    (hsink : ∀ e v, Inv v → ∃ v', report P e v = .ret () v' ∧ Inv v') :
    ∃ w', (Shutdown P none w).out = .ret () w'
      ∧ invoked (Shutdown P none w).trace = w.m.handlers
      ∧ reported (Shutdown P none w).trace = (results (Shutdown P none w).trace).reduceOption
      ∧ (∀ outcome : H → Option (Option Payload),
          (∀ h ∈ w.m.handlers, ∀ u, (fnOf h u).panicked = outcome h) →
          results (Shutdown P none w).trace
              = w.m.handlers.map (fun h => resultOfFunc (outcome h))
          ∧ reported (Shutdown P none w).trace
              = w.m.handlers.filterMap (fun h => resultOfFunc (outcome h)))
      ∧ ∀ (log : World H S σ → List Nat) (idx : H → Nat),
          (∀ h ∈ w.m.handlers, ∀ u, Inv u → log (fnOf h u).state = log u ++ [idx h]) →
          (∀ e v v', Inv v → report P e v = .ret () v' → log v' = log v) →
          log w' = log w ++ w.m.handlers.map idx := by
  have hcall : ∀ h ∈ w.m.handlers, ∀ v, Inv v →
      ∃ res v', P.call h v = .ret res v' ∧ Inv v' := by
    intro h hh v hv
    exact ⟨_, _, by rw [hFunc h hh, Func_returns], hfn h hh v hv⟩
  obtain ⟨w', ho, _, hi⟩ := rangeHandlers_returns P Inv w.m.handlers hcall hsink w h0
  have hrep := rangeHandlers_reported P w.m.handlers w
  obtain ⟨_, hmap⟩ := rangeHandlers_results P w.m.handlers w w' ho
  refine ⟨w', ho, hi, hrep, ?_, ?_⟩
  · intro outcome hout
    have hres := hmap (fun h => resultOfFunc (outcome h)) (by
      intro h hh v res v' hc
      rw [hFunc h hh, Func_returns] at hc
      injection hc with h1 _
      rw [← h1, hout h hh v])
    refine ⟨hres, ?_⟩
    show reported (rangeHandlers P w.m.handlers w).trace = _
    rw [hrep, hres, List.reduceOption, List.filterMap_map]
    rfl
  · intro log idx hlog hlogsink
    obtain ⟨w'', ho', _, hi', hg⟩ :=
      rangeHandlers_spec P Inv log (fun h l => l ++ [idx h]) (fun _ l => l) w.m.handlers
        (fun h hh v hv =>
          ⟨_, _, by rw [hFunc h hh, Func_returns], hfn h hh v hv, hlog h hh v hv⟩)
        (fun e v hv => by
          obtain ⟨v', h1, h2⟩ := hsink e v hv
          exact ⟨v', h1, h2, hlogsink e v v' hv h1⟩) w h0
    rw [ho] at ho'
    injection ho' with _ h2
    subst h2
    rw [hg, observe_log, hi']

/-- C20 at a Manager with a recording sink and four handlers made by `Func`, of
functions that panic with the string `boom`, append to the log, panic with
the integer 123 and set the flag: `Shutdown` returns, all four handlers were
invoked in order, the log has its entry, the flag is set, and the sink has
recorded the two normalized payloads in order. -/
theorem Shutdown_of_Func_handlers_witness :
    ∃ w', (Shutdown testProgram none
        (recordingWorld [.func (.panics (some (.str "boom"))), .func (.appendIndex 0),
          .func (.panics (some (.val (.int 123)))), .func .setCalled])).out = .ret () w'
      ∧ invoked (Shutdown testProgram none
        (recordingWorld [.func (.panics (some (.str "boom"))), .func (.appendIndex 0),
          .func (.panics (some (.val (.int 123)))), .func .setCalled])).trace
        = [.func (.panics (some (.str "boom"))), .func (.appendIndex 0),
          .func (.panics (some (.val (.int 123)))), .func .setCalled]
      ∧ w'.heap.called = [1]
      ∧ w'.heap.flag = true
      ∧ w'.heap.sink.errors
          = [.errorString "boom", .errorString "Unknown panic, received: 123"] := by
  obtain ⟨w', ho, hi, _⟩ :=
    Shutdown_of_Func_handlers testProgram
      (fun v => v.m = (recordingWorld [.func (.panics (some (.str "boom"))),
          .func (.appendIndex 0), .func (.panics (some (.val (.int 123)))),
          .func .setCalled]).m)
      (recordingWorld [.func (.panics (some (.str "boom"))), .func (.appendIndex 0),
          .func (.panics (some (.val (.int 123)))), .func .setCalled])
      (fun h => match h with
        | .func fn => fn.run
        | _ => fun v => .ret () v)
      rfl
      (fun h hh => by
        simp [recordingWorld, Manager.Register, NewManager] at hh
        rcases hh with rfl | rfl | rfl | rfl <;> rfl)
      (fun h hh u hu => by
        simp [recordingWorld, Manager.Register, NewManager] at hh
        rcases hh with rfl | rfl | rfl | rfl <;> exact hu)
      (fun e v hv => by
        refine ⟨{ v with heap := { v.heap with sink := v.heap.sink.Handle e } }, ?_, hv⟩
        simp only [report, hv, testProgram, recordingWorld, Manager.Register, NewManager])
  have hc : (Shutdown testProgram none
        (recordingWorld [.func (.panics (some (.str "boom"))), .func (.appendIndex 0),
          .func (.panics (some (.val (.int 123)))), .func .setCalled])).out
      = .ret ()
          { recordingWorld [.func (.panics (some (.str "boom"))), .func (.appendIndex 0),
              .func (.panics (some (.val (.int 123)))), .func .setCalled] with
            heap := { called := [1], flag := true,
                      sink := { errors := [.errorString "boom",
                        .errorString "Unknown panic, received: 123"] } } } := by decide
  have ho' := ho
  rw [hc] at ho'
  injection ho' with _ h2
  subst h2
  exact ⟨_, ho, hi, rfl, rfl, rfl⟩

/-! ## Slices: what append leaves alone -/

/-- `append(s, t...)` leaves the first `n` cells of the array `a` as they are
when `s` is a slice of another array, or has at least `n` elements; and then
this is so for the slice it returns, too. -/
theorem goAppend_frame (k : Nat) (A : Arrays H) (s t : Slice) (a n : Nat)
    (c : List (Option H))
    (ha : a < A.length) (hc : A.cells a n = c) (hn : c.length = n)
    (hs : s.arr ≠ a ∨ n ≤ s.len) :
    (goAppend k A s t).1.cells a n = c
    ∧ a < (goAppend k A s t).1.length
    ∧ ((goAppend k A s t).2.arr ≠ a ∨ n ≤ (goAppend k A s t).2.len) := by
  simp only [goAppend, Arrays.cells, List.getD_eq_getElem?_getD] at hc ⊢
  split
  · refine ⟨?_, by simpa using ha, ?_⟩
    · by_cases hsa : s.arr = a
      · have hle : n ≤ s.len := by
          rcases hs with h | h
          · exact absurd hsa h
          · exact h
        subst hsa
        have hlen : n ≤ (A[s.arr]?.getD []).length := by
          have := congrArg List.length hc
          rw [List.length_take] at this
          omega
        rw [List.getElem?_set_self ha]
        simp only [Option.getD_some, writeAt, List.append_assoc]
        rw [List.take_append_of_le_length (by rw [List.length_take]; omega), List.take_take]
        rw [Nat.min_eq_left hle]
        exact hc
      · rw [List.getElem?_set_ne hsa]
        exact hc
    · rcases hs with h | h
      · exact Or.inl h
      · exact Or.inr (by simp only []; omega)
  · refine ⟨?_, by simp; omega, Or.inl (by simp only []; omega)⟩
    rw [List.getElem?_append_left ha]
    exact hc

/-- A call that registers handlers passed one by one, or registers nothing,
leaves the first `n` cells of the array `a` as they are, when the handler slice
of the Manager is a slice of another array or has at least `n` elements; and
then this is so after the call, too. -/
theorem Registers_frame (v v1 : SliceWorld H S σ) (a n : Nat) (c : List (Option H))
    (hn : c.length = n) (hreg : Registers v v1)
    (hJ : a < v.arrays.length ∧ v.arrays.cells a n = c
      ∧ (v.m.handlers.arr ≠ a ∨ n ≤ v.m.handlers.len)) :
    a < v1.arrays.length ∧ v1.arrays.cells a n = c
      ∧ (v1.m.handlers.arr ≠ a ∨ n ≤ v1.m.handlers.len) := by
  obtain ⟨ha, hc, hs⟩ := hJ
  have ha1 : ∀ x : List (Option H), a < (v.arrays ++ [x]).length := by
    intro x
    simp
    omega
  have hc1 : ∀ x : List (Option H), Arrays.cells (v.arrays ++ [x]) a n = c := by
    intro x
    simp only [Arrays.cells, List.getD_eq_getElem?_getD] at hc ⊢
    rw [List.getElem?_append_left ha]
    exact hc
  rcases hreg with ⟨h1, h2⟩ | ⟨xs, h1, h2⟩ | ⟨xs, h1, h2⟩
  · rw [h1, h2]
    exact ⟨ha, hc, hs⟩
  · rw [h1, h2]
    obtain ⟨g1, g2, g3⟩ := goAppend_frame v.spare (v.arrays ++ [xs.map some]) v.m.handlers
      { arr := v.arrays.length, len := xs.length, cap := xs.length } a n c
      (ha1 _) (hc1 _) hn hs
    exact ⟨g2, g1, g3⟩
  · rw [h1, h2]
    obtain ⟨g1, g2, g3⟩ := goAppend_frame v.spare (v.arrays ++ [xs.map some])
      { arr := v.arrays.length, len := xs.length, cap := xs.length } v.m.handlers a n c
      (ha1 _) (hc1 _) hn (Or.inl (by simp only []; omega))
    exact ⟨g2, g1, g3⟩

/-- The same for a call that does so any number of times. -/
theorem Registers_frame_chain (a n : Nat) (c : List (Option H)) (hn : c.length = n)
    (v v1 : SliceWorld H S σ) (hreg : Relation.ReflTransGen Registers v v1)
    (hJ : a < v.arrays.length ∧ v.arrays.cells a n = c
      ∧ (v.m.handlers.arr ≠ a ∨ n ≤ v.m.handlers.len)) :
    a < v1.arrays.length ∧ v1.arrays.cells a n = c
      ∧ (v1.m.handlers.arr ≠ a ∨ n ≤ v1.m.handlers.len) := by
  induction hreg with
  | refl => exact hJ
  | tail _ hstep ih => exact Registers_frame _ _ a n c hn hstep ih

@[simp]
theorem sliceAfter_out (evs : List (Event H S)) (run : SliceRun H S σ) :
    (run.after evs).out = run.out := rfl

@[simp]
theorem sliceAfter_trace (evs : List (Event H S)) (run : SliceRun H S σ) :
    (run.after evs).trace = evs ++ run.trace := rfl

/-- The loop on slices when every callee returns and the cells it ranges over
hold the handlers `hs` in every state that satisfies `Inv`: from index `i` on it
invokes the handlers of `hs` from `i` on, in order. -/
theorem rangeSlice_returns (P : SliceProgram H S σ) (Inv : SliceWorld H S σ → Prop)
    (s : Slice) (hs : List H) (hlen : hs.length = s.len)
    (hcells : ∀ v, Inv v → v.arrays.cells s.arr s.len = hs.map some)
    (hcall : ∀ h ∈ hs, ∀ v, Inv v → ∃ res v', P.call h v = .ret res v' ∧ Inv v')
    (hsink : ∀ e v, Inv v → ∃ v', sliceReport P e v = .ret () v' ∧ Inv v') :
    ∀ n i, i + n = s.len → ∀ w, Inv w →
      ∃ w', (rangeSlice P s n i w).out = .ret () w' ∧ Inv w'
        ∧ invoked (rangeSlice P s n i w).trace = hs.drop i := by
  intro n
  induction n with
  | zero =>
    intro i hi w hw
    refine ⟨w, rfl, hw, ?_⟩
    have : hs.length ≤ i := by omega
    simp [rangeSlice, invoked, List.drop_eq_nil_of_le this]
  | succ n ih =>
    intro i hi w hw
    have hilt : i < hs.length := by omega
    have hcell : w.arrays.cell s.arr i = some (some hs[i]) := by
      have h1 := hcells w hw
      simp only [Arrays.cells, Arrays.cell] at h1 ⊢
      have h2 : ((w.arrays.getD s.arr []).take s.len)[i]? = (hs.map some)[i]? := by rw [h1]
      rw [List.getElem?_take_of_lt (by omega)] at h2
      rw [List.get?_eq_getElem?, h2]
      simp [hilt]
    have hdrop : hs.drop i = hs[i] :: hs.drop (i + 1) := List.drop_eq_getElem_cons hilt
    obtain ⟨res, w1, hc, hw1⟩ := hcall hs[i] (List.getElem_mem _) w hw
    rw [rangeSlice]
    simp only [hcell, hc]
    cases res with
    | none =>
      obtain ⟨w', ho, hw', hi'⟩ := ih (i + 1) (by omega) w1 hw1
      exact ⟨w', by simpa using ho, hw',
        by rw [sliceAfter_trace, invoked_append, hi', hdrop]; rfl⟩
    | some e =>
      obtain ⟨w2, hr, hw2⟩ := hsink e w1 hw1
      obtain ⟨w', ho, hw', hi'⟩ := ih (i + 1) (by omega) w2 hw2
      simp only [hr]
      exact ⟨w', by simpa using ho, hw',
        by rw [sliceAfter_trace, invoked_append, hi', hdrop]; rfl⟩

/-- `Shutdown` on slices with no panic in progress, when the handlers `hs` that
the handler slice holds all return, the sink returns, and every call registers
at most handlers that are passed one by one: `Shutdown` returns and has invoked
exactly `hs`, whose cells are as they were. -/
theorem SliceShutdown_spec (P : SliceProgram H S σ) (Inv : SliceWorld H S σ → Prop)
    (w : SliceWorld H S σ) (hs : List H)
    (hlen : hs.length = w.m.handlers.len)
    (hcells : w.arrays.cells w.m.handlers.arr w.m.handlers.len = hs.map some)
    (h0 : Inv w)
    (hcall : ∀ h ∈ hs, ∀ v, Inv v →
      ∃ res v', P.call h v = .ret res v' ∧ Inv v' ∧ Relation.ReflTransGen Registers v v')
    (hsink : ∀ e v, Inv v →
      ∃ v', sliceReport P e v = .ret () v' ∧ Inv v' ∧ Relation.ReflTransGen Registers v v') :
    ∃ w', (SliceShutdown P none w).out = .ret () w' ∧ Inv w'
      ∧ invoked (SliceShutdown P none w).trace = hs
      ∧ w'.arrays.cells w.m.handlers.arr w.m.handlers.len = hs.map some := by
  have hrun : SliceShutdown P none w = rangeSlice P w.m.handlers w.m.handlers.len 0 w := rfl
  by_cases hnil : hs = []
  · subst hnil
    have h0len : w.m.handlers.len = 0 := by simpa using hlen.symm
    rw [hrun, h0len]
    refine ⟨w, rfl, h0, rfl, ?_⟩
    rw [h0len] at hcells
    exact hcells
  · have harr : w.m.handlers.arr < w.arrays.length := by
      by_contra hge
      have hd : w.arrays.getD w.m.handlers.arr [] = [] := by
        rw [List.getD_eq_getElem?_getD, List.getElem?_eq_none (by omega)]
        rfl
      simp only [Arrays.cells, hd, List.take_nil] at hcells
      exact hnil (List.map_eq_nil_iff.mp hcells.symm)
    have hn : (hs.map some).length = w.m.handlers.len := by simpa using hlen
    obtain ⟨w', ho, ⟨hw', hJ⟩, hi⟩ :=
      rangeSlice_returns P
        (fun v => Inv v ∧ (w.m.handlers.arr < v.arrays.length
          ∧ v.arrays.cells w.m.handlers.arr w.m.handlers.len = hs.map some
          ∧ (v.m.handlers.arr ≠ w.m.handlers.arr ∨ w.m.handlers.len ≤ v.m.handlers.len)))
        w.m.handlers hs hlen (fun v hv => hv.2.2.1)
        (fun h hh v hv => by
          obtain ⟨res, v', h1, h2, h3⟩ := hcall h hh v hv.1
          exact ⟨res, v', h1, h2, Registers_frame_chain _ _ _ hn v v' h3 hv.2⟩)
        (fun e v hv => by
          obtain ⟨v', h1, h2, h3⟩ := hsink e v hv.1
          exact ⟨v', h1, h2, Registers_frame_chain _ _ _ hn v v' h3 hv.2⟩)
        w.m.handlers.len 0 (by omega) w ⟨h0, harr, hcells, Or.inr (Nat.le_refl _)⟩
    exact ⟨w', by rw [hrun]; exact ho, hw', by rw [hrun, hi]; rfl, hJ.2.1⟩

/-! ## C17: the handlers of one call are those of its start -/

/-- C17, as stated, fails, in three ways.  All handlers here return in every
state.  First, `range` reads each handler from the backing array when its turn
comes, and `RegisterAsFirst(s...)` appends to the slice `s` of the caller, in
place when its capacity allows.  After `s := make([]Handler, 1, 4)`,
`manager.RegisterAsFirst(s...)` and `manager.Register(h1, h2)` the Manager holds
`s0, h1, h2` in the array of `s`; when `s0` calls `manager.RegisterAsFirst(s...)`
the elements move up inside that array, and `Shutdown` invokes `s0, s0, h1`:
`s0` is repeated and `h2` skipped.  Second, the handler slice is read when the
loop starts, after the error of a panic in progress was passed to `Handle`: a
handler that the sink registers there is invoked in the same call.  Third,
when a callee panics, here the nil `ErrorHandler` after a failing handler, the
remaining handlers are skipped. -/
theorem Shutdown_can_repeat_skip_or_add_handlers :
    (∀ (h : SliceHandler) (v : SliceTestWorld), ∃ res v', sliceProgram.call h v = .ret res v')
    ∧ sharedArrayWorld.arrays.cells sharedArrayWorld.m.handlers.arr
        sharedArrayWorld.m.handlers.len
      = [some (.registerAsFirstSlice { arr := 0, len := 1, cap := 4 }),
         some (.log 1 none), some (.log 2 none)]
    ∧ invoked (SliceShutdown sliceProgram none sharedArrayWorld).trace
      = [.registerAsFirstSlice { arr := 0, len := 1, cap := 4 },
         .registerAsFirstSlice { arr := 0, len := 1, cap := 4 }, .log 1 none]
    ∧ (SliceShutdown sliceProgram none sharedArrayWorld).out.panicked = none
    ∧ (SliceShutdown sliceProgram none sharedArrayWorld).out.state.heap.called = [1]
    ∧ (registeredWorld 0 (some (.impl (.registering 9))) [.log 1 none]).arrays.cells
        (registeredWorld 0 (some (.impl (.registering 9))) [.log 1 none]).m.handlers.arr
        (registeredWorld 0 (some (.impl (.registering 9))) [.log 1 none]).m.handlers.len
      = [some (.log 1 none)]
    ∧ invoked (SliceShutdown sliceProgram (some (.str "main failed"))
        (registeredWorld 0 (some (.impl (.registering 9))) [.log 1 none])).trace
      = [.log 1 none, .log 9 none]
    ∧ invoked (SliceShutdown sliceProgram none
        (registeredWorld 0 none
          [.register 9, .log 1 (some (.custom 7 "error")), .log 2 none])).trace
      = [.register 9, .log 1 (some (.custom 7 "error"))]
    ∧ (SliceShutdown sliceProgram none
        (registeredWorld 0 none
          [.register 9, .log 1 (some (.custom 7 "error")), .log 2 none])).out.panicked
      = some (some nilDereference) := by
  refine ⟨?_, by decide, by decide, by decide, by decide, by decide, by decide, by decide,
    by decide⟩
  intro h v
  cases h <;> exact ⟨_, _, rfl⟩

/-- C17 (amended): let `Shutdown` be called with no panic in progress, on a
Manager whose handlers all return and whose Error Sink returns from every
`Handle` that `Shutdown` calls, and let every callee leave the arrays and the
handler slice alone or change them by calls of `Register` and `RegisterAsFirst`
with handlers passed one by one.  Then the handlers that call of `Shutdown` executes
are exactly the handler sequence held when `Shutdown` begins, in that order: if
a running handler calls `Register` or `RegisterAsFirst` on the same Manager, the
handlers it adds are not invoked and the original handlers are neither
skipped, repeated nor reordered in that call.  A later call of `Shutdown`
executes, under the same conditions, the sequence the Manager holds then, in
which the additions are.
`Inv` is any property of the state that the calls keep and under which they
return. -/
theorem SliceShutdown_runs_the_sequence_of_its_start
    (P : SliceProgram H S σ) (Inv : SliceWorld H S σ → Prop)
    (w : SliceWorld H S σ) (hs : List H)
    (hlen : hs.length = w.m.handlers.len)
    (hcells : w.arrays.cells w.m.handlers.arr w.m.handlers.len = hs.map some)
    (h0 : Inv w)
    (hcall : ∀ h ∈ hs, ∀ v, Inv v →
      ∃ res v', P.call h v = .ret res v' ∧ Inv v' ∧ Relation.ReflTransGen Registers v v')
    (hsink : ∀ e v, Inv v →
      ∃ v', sliceReport P e v = .ret () v' ∧ Inv v' ∧ Relation.ReflTransGen Registers v v') :
    ∃ w', (SliceShutdown P none w).out = .ret () w'
      ∧ invoked (SliceShutdown P none w).trace = hs
      ∧ w'.arrays.cells w.m.handlers.arr w.m.handlers.len = hs.map some
      ∧ ∀ later : List H, later.length = w'.m.handlers.len →
          w'.arrays.cells w'.m.handlers.arr w'.m.handlers.len = later.map some →
          (∀ h ∈ later, ∀ v, Inv v →
            ∃ res v', P.call h v = .ret res v' ∧ Inv v' ∧ Relation.ReflTransGen Registers v v') →
          ∃ w'', (SliceShutdown P none w').out = .ret () w''
            ∧ invoked (SliceShutdown P none w').trace = later := by
  obtain ⟨w', ho, hw', hi, hc⟩ := SliceShutdown_spec P Inv w hs hlen hcells h0 hcall hsink
  refine ⟨w', ho, hi, hc, ?_⟩
  intro later hl hcl hcalll
  obtain ⟨w'', ho2, _, hi2, _⟩ := SliceShutdown_spec P Inv w' later hl hcl hw' hcalll hsink
  exact ⟨w'', ho2, hi2⟩

/-- The amended C17 on a Manager whose handlers register further handlers
while `Shutdown` runs: that call invokes the four handlers it held at its
start, in order, and the next call the six the Manager holds then. -/
theorem SliceShutdown_runs_the_sequence_of_its_start_witness :
    registeringWorld.arrays.cells registeringWorld.m.handlers.arr
        registeringWorld.m.handlers.len
      = [some (.log 1 none), some (.register 9), some (.registerAsFirst 8),
         some (.log 2 (some (.custom 7 "error")))]
    ∧ invoked (SliceShutdown sliceProgram none registeringWorld).trace
      = [.log 1 none, .register 9, .registerAsFirst 8, .log 2 (some (.custom 7 "error"))]
    ∧ (SliceShutdown sliceProgram none registeringWorld).out.panicked = none
    ∧ (SliceShutdown sliceProgram none registeringWorld).out.state.heap.called = [1, 2]
    ∧ (SliceShutdown sliceProgram none registeringWorld).out.state.heap.sink.errors
      = [.custom 7 "error"]
    ∧ invoked (SliceShutdown sliceProgram none
        (SliceShutdown sliceProgram none registeringWorld).out.state).trace
      = [.log 8 none, .log 1 none, .register 9, .registerAsFirst 8,
         .log 2 (some (.custom 7 "error")), .log 9 none] := by
  have hret : ∀ h : SliceHandler, (∀ t, h ≠ .registerAsFirstSlice t) →
      ∀ v : SliceTestWorld, v.m.ErrorHandler = some (.impl .recorder) →
      ∃ res v', sliceProgram.call h v = .ret res v'
        ∧ v'.m.ErrorHandler = some (.impl .recorder)
        ∧ Relation.ReflTransGen Registers v v' := by
    intro h hne v hv
    cases h with
    | log i err => exact ⟨_, _, rfl, hv, .single (Or.inl ⟨rfl, rfl⟩)⟩
    | registerAsFirstSlice t => exact absurd rfl (hne t)
    | register i =>
      exact ⟨_, _, rfl, hv, .single (Or.inr (Or.inl ⟨[.log i none], rfl, rfl⟩))⟩
    | registerAsFirst i =>
      exact ⟨_, _, rfl, hv, .single (Or.inr (Or.inr ⟨[.log i none], rfl, rfl⟩))⟩
  have hsink : ∀ (e : GoError) (v : SliceTestWorld),
      v.m.ErrorHandler = some (.impl .recorder) →
      ∃ v', sliceReport sliceProgram e v = .ret () v'
        ∧ v'.m.ErrorHandler = some (.impl .recorder)
        ∧ Relation.ReflTransGen Registers v v' := by
    intro e v hv
    refine ⟨{ v with heap := { v.heap with sink := v.heap.sink.Handle e } }, ?_, hv,
      .single (Or.inl ⟨rfl, rfl⟩)⟩
    simp only [sliceReport]
    rw [hv]
    rfl
  obtain ⟨w', ho, hi, _, hnext⟩ := SliceShutdown_runs_the_sequence_of_its_start sliceProgram
    (fun v => v.m.ErrorHandler = some (.impl .recorder)) registeringWorld
    [.log 1 none, .register 9, .registerAsFirst 8, .log 2 (some (.custom 7 "error"))]
    (by decide) (by decide) rfl
    (fun h hm v hv => hret h (by rintro t rfl; simp at hm) v hv) hsink
  have hw : (SliceShutdown sliceProgram none registeringWorld).out.state = w' := by
    rw [ho]
    rfl
  obtain ⟨_, _, hi2⟩ := hnext
    [.log 8 none, .log 1 none, .register 9, .registerAsFirst 8,
      .log 2 (some (.custom 7 "error")), .log 9 none]
    (by rw [← hw]; decide) (by rw [← hw]; decide)
    (fun h hm v hv => hret h (by rintro t rfl; simp at hm) v hv)
  refine ⟨by decide, hi, by decide, by decide, by decide, ?_⟩
  rw [hw]
  exact hi2

end shutdown
